import Mathlib

/-!
# Verification of the colcon-ros-buildfarm local repository import engine

This development embeds the local repository import engine of
colcon-ros-buildfarm (`colcon_ros_buildfarm/local_repository/rpm.py` and
`colcon_ros_buildfarm/local_repository/deb.py`) as executable Lean
definitions and proves properties of the embedding.

Modelling conventions:
* File names are `List Char`; file contents are `List Char` (one `Char`
  per byte); paths are lists of path components.
* The filesystem is an association list from paths to contents;
  directories are implicit (Python's `mkdir(parents=True, exist_ok=True)`
  never fails and is a no-op in this model).
* External tools (hashlib digests, gzip, createrepo_c, dpkg-scanpackages /
  dpkg-scansources) are modelled as parameters or as explicit effects on the
  filesystem, following the spec's description of these collaborators.
* Python's `re` digit class `\d` is modelled as the ASCII digits 0-9.
-/

namespace ColconRosBuildfarm

abbrev FName := List Char
abbrev Bytes := List Char
abbrev FPath := List FName

/-- Convert a Lean string literal to a file-name / content character list. -/
def chars (s : String) : List Char := s.toList

/-- Boolean test that `pat` is a prefix of `l`. -/
def leadsWith {α : Type} [DecidableEq α] : List α → List α → Bool
  | [], _ => true
  | _ :: _, [] => false
  | a :: as, b :: bs => if a = b then leadsWith as bs else false

/-- Boolean test that `l` ends with `suf` (used for glob patterns `*.rpm`,
`*.src.rpm`, ...). -/
def endsWith (l suf : List Char) : Bool := leadsWith suf.reverse l.reverse

/-- Boolean test that `sub` occurs as a contiguous subsequence of `l`. -/
def containsSeq (sub : List Char) : List Char → Bool
  | [] => sub.isEmpty
  | c :: rest => leadsWith sub (c :: rest) || containsSeq sub rest

/-- `'_' in name` from `_copy_to_pool`. -/
def has_underscore : FName → Bool
  | [] => false
  | c :: rest => if c = '_' then true else has_underscore rest

/-- `name.split('_', 1)[0]` from `_copy_to_pool`: the characters before the
first underscore. -/
def before_underscore : FName → FName
  | [] => []
  | c :: rest => if c = '_' then [] else c :: before_underscore rest

/-! ## The rpm package-name pattern

`LocalRpmRepositoryExtension._pkg_match` is the compiled regular expression
`(.+)-(\d+(?:\.\d+)*)-(\d+.*)\.([^\.]+)\.rpm`, used through `re.match`
(anchored at the start of the name only).  The embedding below reproduces
the leftmost-greedy backtracking semantics: group 1 (`.+`) is as long as
possible such that the remainder of the pattern matches, then the version
group is forced (it is always followed by a literal `-`, so greedy digit
runs cannot usefully backtrack), then the release group (`\d+.*`) is as
long as possible, and the architecture group (`[^\.]+`) is the maximal
dot-free run.  `.` matches any character except a newline. -/

/-- The identity `(name, version, release, arch)` parsed from an rpm
file name by `_pkg_match`. -/
structure PackageIdentity where
  name : FName
  version : FName
  release : FName
  arch : FName
deriving DecidableEq, Repr

/-- Maximal digit prefix (`\d+`, greedy). -/
def take_digits : List Char → List Char
  | [] => []
  | c :: rest => if c.isDigit then c :: take_digits rest else []

/-- Remainder after the maximal digit prefix. -/
def drop_digits : List Char → List Char
  | [] => []
  | c :: rest => if c.isDigit then drop_digits rest else c :: rest

theorem drop_digits_length_le : ∀ l : List Char, (drop_digits l).length ≤ l.length
  | [] => Nat.le_refl _
  | c :: rest => by
      unfold drop_digits
      split
      · exact Nat.le_succ_of_le (drop_digits_length_le rest)
      · exact Nat.le_refl _

/-- Maximal run of characters other than `.` (`[^\.]+`, greedy). -/
def take_non_dot : List Char → List Char
  | [] => []
  | c :: rest => if c = '.' then [] else c :: take_non_dot rest

/-- Remainder after the maximal dot-free run. -/
def drop_non_dot : List Char → List Char
  | [] => []
  | c :: rest => if c = '.' then c :: rest else drop_non_dot rest

/-- No newline characters: the span a `.`-quantifier may cover. -/
def no_nl : List Char → Bool
  | [] => true
  | c :: rest => if c = '\n' then false else no_nl rest

/-- Greedy match of `(?:\.\d+)*`, structurally recursive on a fuel bound:
each iteration consumes at least the leading `.`, so `l.length` steps always
suffice. -/
def version_ext_fuel : Nat → List Char → List Char × List Char
  | 0, l => ([], l)
  | fuel + 1, l =>
    match l with
    | '.' :: rest =>
        if take_digits rest = [] then ([], '.' :: rest)
        else
          let p := version_ext_fuel fuel (drop_digits rest)
          ('.' :: (take_digits rest ++ p.1), p.2)
    | l => ([], l)

/-- Greedy match of `(?:\.\d+)*`: returns the matched span and the rest. -/
def version_ext (l : List Char) : List Char × List Char :=
  version_ext_fuel l.length l

/-- Greedy match of `\d+(?:\.\d+)*`: the version group and the rest, or
`none` when no digit starts the input. -/
def match_version (l : List Char) : Option (List Char × List Char) :=
  match take_digits l with
  | [] => none
  | d => some (d ++ (version_ext (drop_digits l)).1, (version_ext (drop_digits l)).2)

/-- Match `\.([^\.]+)\.rpm` as a prefix of `l` (trailing characters are
allowed, as the pattern has no end anchor), returning the arch group. -/
def dot_arch_rpm (l : List Char) : Option (List Char) :=
  match l with
  | '.' :: rest =>
      match take_non_dot rest with
      | [] => none
      | arch =>
        match drop_non_dot rest with
        | '.' :: 'r' :: 'p' :: 'm' :: _ => some arch
        | _ => none
  | _ => none

/-- Longest-prefix-first split search: returns the split `(a, b)` of
`acc.reverse ++ l` with the longest `a` such that `P a b` holds, mirroring
the backtracking order of a greedy quantifier. -/
def best_split (P : List Char → List Char → Bool) (acc : List Char) :
    List Char → Option (List Char × List Char)
  | [] => if P acc.reverse [] then some (acc.reverse, []) else none
  | c :: rest =>
      match best_split P (c :: acc) rest with
      | some r => some r
      | none => if P acc.reverse (c :: rest) then some (acc.reverse, c :: rest) else none

/-- Acceptance test for a release-group split: the release group `\d+.*`
must be nonempty, start with a digit, stay newline-free, and be followed by
`\.([^\.]+)\.rpm`. -/
def rel_arch_ok (a b : List Char) : Bool :=
  (match a with
   | [] => false
   | c :: rest => c.isDigit && no_nl rest) && (dot_arch_rpm b).isSome

/-- Match `(\d+.*)\.([^\.]+)\.rpm` against `r`, preferring the longest
release group: returns the release and arch groups. -/
def rel_arch_find (r : List Char) : Option (List Char × List Char) :=
  match best_split rel_arch_ok [] r with
  | some (g3, suf) =>
      match dot_arch_rpm suf with
      | some arch => some (g3, arch)
      | none => none
  | none => none

/-- Match `(\d+(?:\.\d+)*)-(\d+.*)\.([^\.]+)\.rpm` against the characters
after the first captured `-`: version, release and arch groups. -/
def tail_match (t : List Char) : Option (List Char × List Char × List Char) :=
  match match_version t with
  | none => none
  | some (v, rest) =>
    match rest with
    | '-' :: r2 =>
        match rel_arch_find r2 with
        | some (rel, arch) => some (v, rel, arch)
        | none => none
    | _ => none

/-- Acceptance test for a name-group split: `.+` must be nonempty and
newline-free, followed by `-` and the rest of the pattern. -/
def name_ok (a b : List Char) : Bool :=
  (match a with
   | [] => false
   | _ :: _ => no_nl a) &&
  (match b with
   | '-' :: t => (tail_match t).isSome
   | _ => false)

/-- `self._pkg_match.match(name)`: parse an rpm file name into its
`PackageIdentity`, or `none` when the pattern does not match. -/
def pkg_match (s : FName) : Option PackageIdentity :=
  match best_split name_ok [] s with
  | some (name, b) =>
      match b with
      | '-' :: t =>
          match tail_match t with
          | some (v, rel, arch) => some ⟨name, v, rel, arch⟩
          | none => none
      | _ => none
  | none => none

/-- `m.group(1)`: the base package name parsed from an rpm file name. -/
def pkg_name (s : FName) : Option FName := (pkg_match s).map (·.name)

/-! ## Filesystem model

The filesystem is an association list from paths to file contents.
`mkdir` is implicit; a file exists iff its path has an entry. -/

abbrev FS := List (FPath × Bytes)

/-- Content stored at a path, searching front to back. -/
def fs_lookup : FS → FPath → Option Bytes
  | [], _ => none
  | e :: rest, p => if e.1 = p then some e.2 else fs_lookup rest p

/-- Remove every entry stored at a path (`Path.unlink`, and the implicit
replacement step of an overwriting copy). -/
def fs_remove (p : FPath) : FS → FS
  | [] => []
  | e :: rest => if e.1 = p then fs_remove p rest else e :: fs_remove p rest

/-- Write a file, replacing whatever was at that path
(`open(..., 'w')` / `shutil.copy2` onto an existing destination). -/
def fs_write (fs : FS) (p : FPath) (c : Bytes) : FS :=
  (p, c) :: fs_remove p fs

/-- Number of entries stored at exactly path `p`. -/
def fs_count (p : FPath) : FS → Nat
  | [] => 0
  | e :: rest => (if e.1 = p then 1 else 0) + fs_count p rest

/-- Number of entries whose path satisfies `q`. -/
def fs_count_pred (q : FPath → Bool) : FS → Nat
  | [] => 0
  | e :: rest => (if q e.1 then 1 else 0) + fs_count_pred q rest

/-- Boolean path-prefix test, for `Path.rglob` scans. -/
def dir_leads : FPath → FPath → Bool
  | [], _ => true
  | _ :: _, [] => false
  | a :: as, b :: bs => if a = b then dir_leads as bs else false

/-- `p` denotes a file strictly below directory `d`. -/
def under_dir (d p : FPath) : Bool :=
  dir_leads d p && decide (d.length < p.length)

/-- Boolean membership of a file name in a list of names. -/
def mem_name (b : FName) : List FName → Bool
  | [] => false
  | x :: rest => if x = b then true else mem_name b rest

/-! ## The rpm import engine (`LocalRpmRepositoryExtension`) -/

/-- Errors surfaced by an rpm import: `pathlib.Path.hardlink_to` on an
existing destination raises, `rpm.name[0]` on an empty name raises, and a
non-zero `createrepo_c` exit fails `CompletedProcess.check_returncode`. -/
inductive RpmErr
  | emptyName
  | destExists
  | indexerFailed
deriving DecidableEq, Repr

/-- First character of a file name as a path component (`rpm.name[0]`);
empty only for an empty name, which the caller treats as an error. -/
def first_char_comp : FName → FName
  | [] => []
  | c :: _ => [c]

/-- `repo_dir / 'Packages' / rpm.name[0] / rpm.name`: the archive path a
new rpm is hard-linked to. -/
def rpm_dest (repoDir : FPath) (n : FName) : FPath :=
  repoDir ++ [chars "Packages", first_char_comp n, n]

/-- The base names parsed from a batch; unparsable names contribute
nothing (`continue` in the collection loop). -/
def batch_names (rpms : List (FName × Bytes)) : List FName :=
  rpms.filterMap (fun r => pkg_name r.1)

/-- A path the conflict-resolution scan deletes: an existing file under
`repo_dir` matched by `rglob('*.rpm')` whose name parses to a base name in
the batch's name set. -/
def conflict_pred (repoDir : FPath) (names : List FName) (p : FPath) : Bool :=
  under_dir repoDir p &&
    (match p.getLast? with
     | none => false
     | some n =>
        endsWith n (chars ".rpm") &&
          (match pkg_name n with
           | some b => mem_name b names
           | none => false))

/-- The deletion loop: unlink every `*.rpm` under the repository directory
whose parsed base name is in the batch's name set, unconditionally. -/
def resolve_conflicts (repoDir : FPath) (names : List FName) : FS → FS
  | [] => []
  | e :: rest =>
      if conflict_pred repoDir names e.1 then resolve_conflicts repoDir names rest
      else e :: resolve_conflicts repoDir names rest

/-- Hard-link one rpm into the archive layout: fails if the name is empty
(`rpm.name[0]`) or the destination already exists (`hardlink_to`). -/
def link_one (repoDir : FPath) (fs : FS) (r : FName × Bytes) : Except RpmErr FS :=
  match r.1 with
  | [] => .error .emptyName
  | _ :: _ =>
    match fs_lookup fs (rpm_dest repoDir r.1) with
    | some _ => .error .destExists
    | none => .ok ((rpm_dest repoDir r.1, r.2) :: fs)

/-- The linking loop over the batch; on a failure the loop stops and the
partially updated filesystem is kept (the exception propagates). -/
def link_batch (repoDir : FPath) (fs : FS) : List (FName × Bytes) → FS × Option RpmErr
  | [] => (fs, none)
  | r :: rest =>
      match link_one repoDir fs r with
      | .error e => (fs, some e)
      | .ok fs1 => link_batch repoDir fs1 rest

/-- Modelled from the spec: `createrepo_c` (invoked with `--quiet
--no-database --general-compress-type=gz`, plus `--update` on imports)
regenerates the `repodata` index of the given directory in place; the
model writes the `repodata/repomd.xml` descriptor for the directory. -/
def createrepo_effect (fs : FS) (repoDir : FPath) : FS :=
  fs_write fs (repoDir ++ [chars "repodata", chars "repomd.xml"]) (chars "repomd")

/-- Result of one rpm import: the final filesystem, the file names that
failed to parse (each logged with a warning), and the fatal error, if any. -/
structure RpmImportResult where
  fs : FS
  warnings : List FName
  err : Option RpmErr
deriving DecidableEq, Repr

/-- The warnings the base-name collection loop logs: one per file name that
fails to parse. -/
def import_warnings (rpms : List (FName × Bytes)) : List FName :=
  (rpms.filter (fun r => (pkg_name r.1).isNone)).map (·.1)

/-- `LocalRpmRepositoryExtension._import_to_no_lock`: collect parsable base
names (warning for each unparsable name), delete conflicting archived rpms,
hard-link the whole batch in, then run the indexer (`indexerOk` is the
external process's success). -/
def import_to_no_lock (fs : FS) (repoDir : FPath) (rpms : List (FName × Bytes))
    (indexerOk : Bool) : RpmImportResult :=
  match link_batch repoDir (resolve_conflicts repoDir (batch_names rpms) fs) rpms with
  | (fs2, some e) => ⟨fs2, import_warnings rpms, some e⟩
  | (fs2, none) =>
      if indexerOk then ⟨createrepo_effect fs2 repoDir, import_warnings rpms, none⟩
      else ⟨fs2, import_warnings rpms, some .indexerFailed⟩

/-- `binarypkg/*.src.rpm`: the source subset of a binary artifact. -/
def src_set (l : List (FName × Bytes)) : List (FName × Bytes) :=
  l.filter (fun r => endsWith r.1 (chars ".src.rpm"))

/-- `*-debuginfo-*.rpm` or `*-debugsource-*.rpm` (fnmatch semantics: the
infix must occur, and the name must end in `.rpm`). -/
def debug_name (n : FName) : Bool :=
  endsWith n (chars ".rpm") &&
    (containsSeq (chars "-debuginfo-") (n.take (n.length - 4)) ||
     containsSeq (chars "-debugsource-") (n.take (n.length - 4)))

/-- The debug subset of a binary artifact. -/
def debug_set (l : List (FName × Bytes)) : List (FName × Bytes) :=
  l.filter (fun r => debug_name r.1)

/-- `binarypkg/*.rpm` minus the source and debug subsets. -/
def arch_set (l : List (FName × Bytes)) : List (FName × Bytes) :=
  l.filter (fun r =>
    endsWith r.1 (chars ".rpm") && !endsWith r.1 (chars ".src.rpm") && !debug_name r.1)

/-- Result of `import_binary`: final filesystem, whether the empty-arch
warning fired, and the first fatal error. -/
structure RpmBinaryResult where
  fs : FS
  emptyArchWarn : Bool
  err : Option RpmErr
deriving DecidableEq, Repr

/-- The debug stage of `import_binary`: `if debug_rpms: await
self._import_to(debug_dir, debug_rpms)` — skipped when the debug subset is
empty. -/
def rpm_debug_stage (fs : FS) (debugDir : FPath) (binarypkg : List (FName × Bytes))
    (debugIndexerOk : Bool) : FS × Option RpmErr :=
  match debug_set binarypkg with
  | [] => (fs, none)
  | d :: ds => ((import_to_no_lock fs debugDir (d :: ds) debugIndexerOk).fs,
                (import_to_no_lock fs debugDir (d :: ds) debugIndexerOk).err)

/-- `LocalRpmRepositoryExtension.import_binary`: partition `binarypkg`, then
bring the arch subset into `<arch>` and the debug subset into
`<arch>/debug`; an empty arch subset only logs a warning.  A failure of the
arch import propagates before the debug import runs. -/
def rpm_import_binary (fs : FS) (basePath : FPath) (osName osCodeName archName : FName)
    (binarypkg : List (FName × Bytes)) (archIndexerOk debugIndexerOk : Bool) :
    RpmBinaryResult :=
  match arch_set binarypkg with
  | [] =>
      ⟨(rpm_debug_stage fs (basePath ++ [osName, osCodeName, archName, chars "debug"])
          binarypkg debugIndexerOk).1, true,
        (rpm_debug_stage fs (basePath ++ [osName, osCodeName, archName, chars "debug"])
          binarypkg debugIndexerOk).2⟩
  | a :: as =>
      match (import_to_no_lock fs (basePath ++ [osName, osCodeName, archName])
          (a :: as) archIndexerOk).err with
      | some e =>
          ⟨(import_to_no_lock fs (basePath ++ [osName, osCodeName, archName])
              (a :: as) archIndexerOk).fs, false, some e⟩
      | none =>
          ⟨(rpm_debug_stage
              (import_to_no_lock fs (basePath ++ [osName, osCodeName, archName])
                (a :: as) archIndexerOk).fs
              (basePath ++ [osName, osCodeName, archName, chars "debug"])
              binarypkg debugIndexerOk).1, false,
            (rpm_debug_stage
              (import_to_no_lock fs (basePath ++ [osName, osCodeName, archName])
                (a :: as) archIndexerOk).fs
              (basePath ++ [osName, osCodeName, archName, chars "debug"])
              binarypkg debugIndexerOk).2⟩

/-- Per-directory initialization step of `LocalRpmRepositoryExtension.initialize`:
a directory whose `repodata/repomd.xml` exists is skipped, otherwise the
indexer bootstraps empty metadata.  The second component records the paths
written. -/
def rpm_init_dir (st : FS × List FPath) (repoDir : FPath) : FS × List FPath :=
  let repomd := repoDir ++ [chars "repodata", chars "repomd.xml"]
  if (fs_lookup st.1 repomd).isSome then st
  else (createrepo_effect st.1 repoDir, st.2 ++ [repomd])

/-- `LocalRpmRepositoryExtension.initialize`: bootstrap `SRPMS`, `<arch>`
and `<arch>/debug`. -/
def initialize_rpm (fs : FS) (basePath : FPath) (osName osCodeName archName : FName) :
    FS × List FPath :=
  let srpmsDir := basePath ++ [osName, osCodeName, chars "SRPMS"]
  let archDir := basePath ++ [osName, osCodeName, archName]
  let debugDir := archDir ++ [chars "debug"]
  rpm_init_dir (rpm_init_dir (rpm_init_dir (fs, []) srpmsDir) archDir) debugDir

/-! ## The apt/deb engine (`LocalDebRepositoryExtension`)

External byte-level collaborators (hashlib digests, gzip compression) are
passed in as a record of functions; the engine only forwards bytes to them. -/

/-- The external digest and compression functions used by the deb engine:
`hashlib.md5/sha1/sha256(...).hexdigest()` and gzip compression. -/
structure ExtTools where
  md5 : Bytes → List Char
  sha1 : Bytes → List Char
  sha256 : Bytes → List Char
  gzipC : Bytes → Bytes

/-- A concrete trivial implementation of the external digest and gzip
functions, for closed evaluation. -/
def trivial_tools : ExtTools := ⟨fun _ => [], fun _ => [], fun _ => [], fun _ => []⟩

/-- Decimal rendering of a size, as Python's `f'{size}'`. -/
def nat_chars (n : Nat) : List Char := Nat.toDigits 10 n

/-- Relative path rendered with `/` separators, as
`package_file.relative_to(dist_dir)` prints. -/
def join_rel : FPath → FName
  | [] => []
  | [c] => c
  | c :: rest => c ++ '/' :: join_rel rest

/-- Strip a directory prefix from a path, or `none` when the path is not
below the directory. -/
def strip_dir : FPath → FPath → Option FPath
  | [], p => some p
  | _ :: _, [] => none
  | d :: ds, c :: cs => if d = c then strip_dir ds cs else none

/-- Total lexicographic order on character lists by code point, the order
Python's `sorted` applies to the path strings. -/
def chle : List Char → List Char → Bool
  | [], _ => true
  | _ :: _, [] => false
  | a :: as, b :: bs => if a = b then chle as bs else decide (a < b)

/-- Insertion into a list sorted by `chle` on the first component. -/
def sort_ins (x : FName × Bytes) : List (FName × Bytes) → List (FName × Bytes)
  | [] => [x]
  | y :: rest => if chle x.1 y.1 then x :: y :: rest else y :: sort_ins x rest

/-- Insertion sort by `chle` on the first component (`sorted(...)`). -/
def sort_files : List (FName × Bytes) → List (FName × Bytes)
  | [] => []
  | x :: rest => sort_ins x (sort_files rest)

/-- The index files listed in a Release file:
`dist_dir.glob('main/*/Packages*')` plus `dist_dir.glob('main/source/Sources*')`,
as (relative path string, content) pairs. -/
def release_globs (fs : FS) (distDir : FPath) : List (FName × Bytes) :=
  fs.filterMap (fun e =>
    match strip_dir distDir e.1 with
    | some [m, comp, fname] =>
        if m = chars "main" then
          if leadsWith (chars "Packages") fname then some (join_rel [m, comp, fname], e.2)
          else if comp = chars "source" then
            if leadsWith (chars "Sources") fname then some (join_rel [m, comp, fname], e.2)
            else none
          else none
        else none
    | _ => none)

/-- One digest loop of `_generate_release`, written as the code performs it:
three sequential `release.write` calls per file, appended to the content
accumulated so far. -/
def write_digests (h : Bytes → List Char) : List (FName × Bytes) → FName → FName
  | [], acc => acc
  | f :: rest, acc =>
      write_digests h rest
        (acc ++ (chars " " ++ h f.2) ++ (chars " " ++ nat_chars f.2.length) ++
          (chars " " ++ f.1 ++ chars "\n"))

/-- The full Release content written by `_generate_release`: eight header
writes, then the `MD5Sum`, `SHA1` and `SHA256` loops over the same sorted
file list. -/
def release_content_code (T : ExtTools) (osCodeName now : FName)
    (files : List (FName × Bytes)) : FName :=
  let h :=
    chars "Origin: ROS\n" ++
    (chars "Label: ROS " ++ osCodeName ++ chars "\n") ++
    (chars "Suite: " ++ osCodeName ++ chars "\n") ++
    (chars "Codename: " ++ osCodeName ++ chars "\n") ++
    (chars "Date: " ++ now ++ chars "\n") ++
    chars "Architectures: amd64\n" ++
    chars "Components: main\n" ++
    (chars "Description: ROS " ++ osCodeName ++ chars " Debian Repository\n")
  let a1 := write_digests T.md5 files (h ++ chars "MD5Sum:\n")
  let a2 := write_digests T.sha1 files (a1 ++ chars "SHA1:\n")
  write_digests T.sha256 files (a2 ++ chars "SHA256:\n")

/-- `dists/<codename>/Release` below an OS root directory. -/
def release_path (osDir : FPath) (osCodeName : FName) : FPath :=
  osDir ++ [chars "dists", osCodeName, chars "Release"]

/-- `_generate_release`: rewrite `dists/<codename>/Release` from the sorted
index files currently on disk. -/
def generate_release (T : ExtTools) (now : FName) (fs : FS) (osDir : FPath)
    (osCodeName : FName) : FS :=
  fs_write fs (release_path osDir osCodeName)
    (release_content_code T osCodeName now
      (sort_files (release_globs fs (osDir ++ [chars "dists", osCodeName]))))

/-- One digest line as the spec words it:
` <hex-digest> <size-in-bytes> <path-relative-to-codename-dir>`. -/
def digest_line (h : Bytes → List Char) (f : FName × Bytes) : FName :=
  chars " " ++ h f.2 ++ chars " " ++ nat_chars f.2.length ++ chars " " ++ f.1 ++ chars "\n"

/-- One digest block as the spec words it: a title line followed by one
digest line per listed file. -/
def digest_block (title : FName) (h : Bytes → List Char)
    (files : List (FName × Bytes)) : FName :=
  (title ++ chars ":\n") ++ (files.map (digest_line h)).flatten

/-- The eight Release header lines, in the spec's fixed order. -/
def header_lines (osCodeName now : FName) : List FName :=
  [chars "Origin: ROS",
   chars "Label: ROS " ++ osCodeName,
   chars "Suite: " ++ osCodeName,
   chars "Codename: " ++ osCodeName,
   chars "Date: " ++ now,
   chars "Architectures: amd64",
   chars "Components: main",
   chars "Description: ROS " ++ osCodeName ++ chars " Debian Repository"]

/-- Release content as the spec describes it: exactly eight header lines,
then the three digest blocks in order `MD5Sum`, `SHA1`, `SHA256`. -/
def release_content_spec (T : ExtTools) (osCodeName now : FName)
    (files : List (FName × Bytes)) : FName :=
  ((header_lines osCodeName now).map (· ++ chars "\n")).flatten ++
    digest_block (chars "MD5Sum") T.md5 files ++
    digest_block (chars "SHA1") T.sha1 files ++
    digest_block (chars "SHA256") T.sha256 files

/-- Errors surfaced by an apt import: the `assert '_' in path.name`
contract check, the `name[0]` indexing on an empty name, and a non-zero
scanner exit. -/
inductive AptErr
  | underscoreAssert
  | indexError
  | scannerFailed
deriving DecidableEq, Repr

/-- The pool path a file is copied to:
`pool/<first-char-of-name>/<name>/<filename>`. -/
def pool_dest (poolDir : FPath) (n : FName) : FPath :=
  poolDir ++ [first_char_comp (before_underscore n), before_underscore n, n]

/-- `_copy_to_pool`: assert the name contains `_`, derive the pool
subdirectory from the part before the first `_` (indexing `name[0]` fails
on an empty part), and copy the file there, overwriting any existing one. -/
def copy_to_pool (poolDir : FPath) (fs : FS) (f : FName × Bytes) : FS × Option AptErr :=
  if has_underscore f.1 then
    match before_underscore f.1 with
    | [] => (fs, some .indexError)
    | _ :: _ => (fs_write fs (pool_dest poolDir f.1) f.2, none)
  else (fs, some .underscoreAssert)

/-- The pool-copy loop over a batch of globbed artifacts; the first raised
error aborts the rest of the batch. -/
def copy_batch (poolDir : FPath) (fs : FS) : List (FName × Bytes) → FS × Option AptErr
  | [] => (fs, none)
  | f :: rest =>
      match copy_to_pool poolDir fs f with
      | (fs1, none) => copy_batch poolDir fs1 rest
      | (fs1, some e) => (fs1, some e)

/-- `'binary-' + arch if arch else 'source'`: the component directory an
index file lives in. -/
def md_comp : Option FName → FName
  | some a => chars "binary-" ++ a
  | none => chars "source"

/-- `'Packages' if arch else 'Sources'`: the index file's name. -/
def md_name : Option FName → FName
  | some _ => chars "Packages"
  | none => chars "Sources"

/-- The index file path for a component. -/
def md_path (osDir : FPath) (osCodeName : FName) (archName : Option FName) : FPath :=
  osDir ++ [chars "dists", osCodeName, chars "main", md_comp archName, md_name archName]

/-- The gzip twin of the index file (`with_suffix(suffix + '.gz')`). -/
def md_gz_path (osDir : FPath) (osCodeName : FName) (archName : Option FName) : FPath :=
  osDir ++ [chars "dists", osCodeName, chars "main", md_comp archName,
    md_name archName ++ chars ".gz"]

/-- `LocalDebRepositoryExtension._update_metadata`: stream the scanner's
stdout (`scanOut`) into the index file and its gzip twin simultaneously
(`_RawAndGzFiles` compresses the twin), fail on a non-zero scanner exit,
then regenerate the Release file. -/
def update_metadata (T : ExtTools) (now : FName) (fs : FS) (osDir : FPath)
    (osCodeName : FName) (archName : Option FName) (scanOut : Bytes)
    (scanOk : Bool) : FS × Option AptErr :=
  if scanOk then
    (generate_release T now
      (fs_write (fs_write fs (md_path osDir osCodeName archName) scanOut)
        (md_gz_path osDir osCodeName archName) (T.gzipC scanOut)) osDir osCodeName, none)
  else
    (fs_write (fs_write fs (md_path osDir osCodeName archName) scanOut)
      (md_gz_path osDir osCodeName archName) (T.gzipC scanOut), some .scannerFailed)

/-- `LocalDebRepositoryExtension.import_binary` under its directory lock:
copy every `binarydeb/*.deb` into the pool, then update the metadata. -/
def deb_import_binary (T : ExtTools) (now : FName) (fs : FS) (basePath : FPath)
    (osName osCodeName archName : FName) (binarydeb : List (FName × Bytes))
    (scanOut : Bytes) (scanOk : Bool) : FS × Option AptErr :=
  match copy_batch (basePath ++ [osName, chars "pool"]) fs binarydeb with
  | (fs1, some e) => (fs1, some e)
  | (fs1, none) =>
      update_metadata T now fs1 (basePath ++ [osName]) osCodeName (some archName)
        scanOut scanOk

/-- `LocalDebRepositoryExtension.import_source` under its directory lock:
copy the globbed `*.dsc`, `*.orig.tar.gz` and `*.debian.tar.xz` files (in
that order) into the pool, then update the source metadata. -/
def deb_import_source (T : ExtTools) (now : FName) (fs : FS) (basePath : FPath)
    (osName osCodeName : FName) (dscs origs debians : List (FName × Bytes))
    (scanOut : Bytes) (scanOk : Bool) : FS × Option AptErr :=
  match copy_batch (basePath ++ [osName, chars "pool"]) fs (dscs ++ origs ++ debians) with
  | (fs1, some e) => (fs1, some e)
  | (fs1, none) =>
      update_metadata T now fs1 (basePath ++ [osName]) osCodeName none scanOut scanOk

/-! ## apt `initialize` -/

/-- State threaded through `LocalDebRepositoryExtension.initialize`: the
filesystem, the paths written so far, and the `force_update` flag. -/
structure InitState where
  fs : FS
  writes : List FPath
  forced : Bool
deriving DecidableEq, Repr

/-- `if not md_file.is_file(): md_file.touch(); force_update = True`. -/
def ensure_file (p : FPath) (st : InitState) : InitState :=
  if (fs_lookup st.fs p).isSome then st
  else ⟨(p, []) :: st.fs, st.writes ++ [p], true⟩

/-- `if not md_gz_file.is_file(): shutil.copyfileobj(raw, gz)`.

Note the code opens the `.gz` twin with a plain `open` and copies the raw
bytes with `shutil.copyfileobj`; no gzip compression is applied, so the
model stores the raw content verbatim at the `.gz` path.  (The raw file
exists whenever this step runs: the preceding `ensure_file` created it.) -/
def ensure_gz_twin (raw gz : FPath) (st : InitState) : InitState :=
  if (fs_lookup st.fs gz).isSome then st
  else ⟨(gz, (fs_lookup st.fs raw).getD []) :: st.fs, st.writes ++ [gz], true⟩

/-- The final Release step of `initialize`: regenerate the Release file
when it is missing or `force_update` was set. -/
def deb_release_step (T : ExtTools) (now : FName) (st : InitState) (osDir : FPath)
    (osCodeName : FName) : FS × List FPath :=
  if (fs_lookup st.fs (release_path osDir osCodeName)).isNone || st.forced then
    (generate_release T now st.fs osDir osCodeName,
      st.writes ++ [release_path osDir osCodeName])
  else (st.fs, st.writes)

/-- All four `is_file` checks and conditional writes of
`LocalDebRepositoryExtension.initialize`, in the code's order. -/
def deb_ensure_steps (fs : FS) (osDir : FPath) (osCodeName archName : FName) : InitState :=
  ensure_gz_twin (md_path osDir osCodeName (some archName))
    (md_gz_path osDir osCodeName (some archName))
    (ensure_file (md_path osDir osCodeName (some archName))
      (ensure_gz_twin (md_path osDir osCodeName none) (md_gz_path osDir osCodeName none)
        (ensure_file (md_path osDir osCodeName none) ⟨fs, [], false⟩)))

/-- `LocalDebRepositoryExtension.initialize`: ensure the `Sources` and
`Packages` index files and their gzip twins exist, then regenerate the
Release file when one was missing or `force_update` was set.  Returns the
filesystem and the list of paths written. -/
def initialize_deb (T : ExtTools) (now : FName) (fs : FS) (basePath : FPath)
    (osName osCodeName archName : FName) : FS × List FPath :=
  deb_release_step T now (deb_ensure_steps fs (basePath ++ [osName]) osCodeName archName)
    (basePath ++ [osName]) osCodeName

/-! ## The per-directory lock discipline

Both engines guard every import with `async with self._lock[dir]`, where
`self._lock` is a `defaultdict(asyncio.Lock)` keyed by the repository
directory.  The protocol of two concurrent import calls is modelled as a
transition system: each call acquires its directory's lock (blocking while
it is held), runs its critical section (pool mutation plus metadata
regeneration), and releases the lock.  `asyncio.Lock.acquire` is modelled
from its documented semantics: it succeeds only when the lock is free. -/

/-- Where an import call stands relative to its critical section. -/
inductive LockPhase
  | outside
  | inside
  | finished
deriving DecidableEq, Repr

/-- Joint state of two concurrent import calls: the directory each call
targets, each call's phase, and the set of directories whose lock is held. -/
structure LockState where
  d1 : FPath
  d2 : FPath
  p1 : LockPhase
  p2 : LockPhase
  held : List FPath
deriving DecidableEq, Repr

/-- Boolean membership of a path in a list of paths. -/
def mem_path (p : FPath) : List FPath → Bool
  | [] => false
  | x :: rest => if x = p then true else mem_path p rest

/-- Drop every occurrence of a path from a list of paths (lock release). -/
def drop_path (p : FPath) : List FPath → List FPath
  | [] => []
  | x :: rest => if x = p then drop_path p rest else x :: drop_path p rest

/-- Interleaving steps of the two calls: a call may enter its critical
section only by acquiring its directory's lock while no one holds it, and
releases the lock when it leaves. -/
inductive LockStep : LockState → LockState → Prop
  | acq1 (s : LockState) (h : s.p1 = .outside) (hfree : mem_path s.d1 s.held = false) :
      LockStep s ⟨s.d1, s.d2, .inside, s.p2, s.d1 :: s.held⟩
  | rel1 (s : LockState) (h : s.p1 = .inside) :
      LockStep s ⟨s.d1, s.d2, .finished, s.p2, drop_path s.d1 s.held⟩
  | acq2 (s : LockState) (h : s.p2 = .outside) (hfree : mem_path s.d2 s.held = false) :
      LockStep s ⟨s.d1, s.d2, s.p1, .inside, s.d2 :: s.held⟩
  | rel2 (s : LockState) (h : s.p2 = .inside) :
      LockStep s ⟨s.d1, s.d2, s.p1, .finished, drop_path s.d2 s.held⟩

/-- Initial state: both import calls issued, neither in its critical
section, no lock held. -/
def lock_init (d1 d2 : FPath) : LockState := ⟨d1, d2, .outside, .outside, []⟩

/-- States reachable by interleaving the two calls. -/
def LockReach (d1 d2 : FPath) (s : LockState) : Prop :=
  Relation.ReflTransGen LockStep (lock_init d1 d2) s

/-- A `*.rpm` file under `repoDir` whose name parses to base name `b`:
the kind of path counted by the no-duplicates invariant. -/
def base_rpm_pred (repoDir : FPath) (b : FName) (p : FPath) : Bool :=
  under_dir repoDir p &&
    (match p.getLast? with
     | none => false
     | some n => endsWith n (chars ".rpm") && decide (pkg_name n = some b))

/-! # Filesystem lemmas -/

theorem fs_lookup_remove_ne {p q : FPath} (h : p ≠ q) :
    ∀ fs : FS, fs_lookup (fs_remove q fs) p = fs_lookup fs p
  | [] => rfl
  | e :: rest => by
      by_cases h1 : e.1 = q
      · have h2 : ¬ (e.1 = p) := fun hc => h (hc.symm.trans h1)
        simp only [fs_remove, fs_lookup, if_pos h1, if_neg h2]
        exact fs_lookup_remove_ne h rest
      · simp only [fs_remove, fs_lookup, if_neg h1]
        by_cases h2 : e.1 = p
        · simp only [if_pos h2]
        · simp only [if_neg h2]
          exact fs_lookup_remove_ne h rest

theorem fs_lookup_write_self (fs : FS) (p : FPath) (c : Bytes) :
    fs_lookup (fs_write fs p c) p = some c := by
  simp [fs_write, fs_lookup]

theorem fs_lookup_write_ne {p q : FPath} (h : p ≠ q) (fs : FS) (c : Bytes) :
    fs_lookup (fs_write fs q c) p = fs_lookup fs p := by
  simp only [fs_write, fs_lookup, if_neg (fun hc => h (hc ▸ rfl) : ¬(q = p))]
  exact fs_lookup_remove_ne h fs

/-- Appending lists of different lengths to the same prefix gives different
paths. -/
theorem append_length_ne {d : FPath} {l1 l2 : List FName}
    (h : l1.length ≠ l2.length) : d ++ l1 ≠ d ++ l2 := by
  intro hc
  exact h (by have := congrArg List.length hc; simpa using this)

/-- The repodata descriptor written by the indexer is never an archive rpm
path: the two paths have different depths below `repoDir`. -/
theorem repomd_ne_rpm_dest (repoDir : FPath) (n : FName) :
    repoDir ++ [chars "repodata", chars "repomd.xml"] ≠ rpm_dest repoDir n := by
  unfold rpm_dest
  exact append_length_ne (by simp)

/-! # Claim C1: handling of unparsable rpm file names -/

/-- Inversion of a successful single link: the destination was free and the
new filesystem is the old one with the destination prepended. -/
theorem link_one_ok {repoDir : FPath} {fs fs1 : FS} {r : FName × Bytes}
    (h : link_one repoDir fs r = .ok fs1) :
    fs_lookup fs (rpm_dest repoDir r.1) = none ∧
      fs1 = (rpm_dest repoDir r.1, r.2) :: fs := by
  unfold link_one at h
  cases hn : r.1 with
  | nil =>
      rw [hn] at h
      exact Except.noConfusion h
  | cons c0 n0 =>
      rw [hn] at h
      cases hd : fs_lookup fs (rpm_dest repoDir (c0 :: n0)) with
      | some _ =>
          rw [hd] at h
          exact Except.noConfusion h
      | none =>
          rw [hd] at h
          simp only [Except.ok.injEq] at h
          exact ⟨rfl, h.symm⟩

/-- Linking a batch never erases an existing lookup result. -/
theorem link_batch_preserves {repoDir : FPath} {p : FPath} {c : Bytes} :
    ∀ (rpms : List (FName × Bytes)) (fs : FS),
      fs_lookup fs p = some c → fs_lookup (link_batch repoDir fs rpms).1 p = some c
  | [], _, h => h
  | r :: rest, fs, h => by
      rw [link_batch]
      cases hone : link_one repoDir fs r with
      | error e => exact h
      | ok fs1 =>
          apply link_batch_preserves rest
          obtain ⟨hfree, hfs1⟩ := link_one_ok hone
          rw [hfs1]
          have hne : rpm_dest repoDir r.1 ≠ p := by
            intro hc
            rw [hc, h] at hfree
            exact Option.noConfusion hfree
          simpa [fs_lookup, hne] using h

/-- After a fully successful linking loop, every batch file is present at
its archive destination with its own content. -/
theorem link_batch_ok_mem {repoDir : FPath} :
    ∀ (rpms : List (FName × Bytes)) (fs fs2 : FS),
      link_batch repoDir fs rpms = (fs2, none) →
      ∀ r ∈ rpms, fs_lookup fs2 (rpm_dest repoDir r.1) = some r.2
  | [], _, _, _, r, hr => absurd hr (List.not_mem_nil r)
  | r0 :: rest, fs, fs2, h, r, hr => by
      rw [link_batch] at h
      cases hone : link_one repoDir fs r0 with
      | error e =>
          rw [hone] at h
          exact absurd (congrArg Prod.snd h) (by simp)
      | ok fs1 =>
          rw [hone] at h
          rcases List.mem_cons.mp hr with hreq | hr'
          · subst hreq
            obtain ⟨hfree, hfs1⟩ := link_one_ok hone
            have hbase : fs_lookup fs1 (rpm_dest repoDir r.1) = some r.2 := by
              rw [hfs1]; simp [fs_lookup]
            have hpres := @link_batch_preserves repoDir _ _ rest fs1 hbase
            have h2 : link_batch repoDir fs1 rest = (fs2, none) := h
            rwa [h2] at hpres
          · exact link_batch_ok_mem rest fs1 fs2 h r hr'

/-- The indexer's repodata write does not disturb archive rpm paths. -/
theorem createrepo_preserves_dest {fs : FS} {repoDir : FPath} {n : FName} {c : Bytes}
    (h : fs_lookup fs (rpm_dest repoDir n) = some c) :
    fs_lookup (createrepo_effect fs repoDir) (rpm_dest repoDir n) = some c := by
  unfold createrepo_effect
  rw [fs_lookup_write_ne (Ne.symm (repomd_ne_rpm_dest repoDir n)) fs]
  exact h

/-- On a successful import every batch file is present at its archive
destination in the final filesystem. -/
theorem import_ok_mem {fs : FS} {repoDir : FPath} {rpms : List (FName × Bytes)} {ok : Bool}
    (h : (import_to_no_lock fs repoDir rpms ok).err = none) :
    ∀ r ∈ rpms,
      fs_lookup (import_to_no_lock fs repoDir rpms ok).fs (rpm_dest repoDir r.1) = some r.2 := by
  intro r hr
  unfold import_to_no_lock at h ⊢
  cases hlb : link_batch repoDir (resolve_conflicts repoDir (batch_names rpms) fs) rpms with
  | mk fs2 e =>
    rw [hlb] at h
    cases e with
    | some err => exact absurd h (by simp)
    | none =>
        cases ok with
        | false => exact absurd h (by simp)
        | true =>
            show fs_lookup (createrepo_effect fs2 repoDir) (rpm_dest repoDir r.1) = some r.2
            exact createrepo_preserves_dest (link_batch_ok_mem rpms _ fs2 hlb r hr)

/-- Claim C1 as stated is false on the code: a file whose name does not
match the package pattern is *not* dropped from the batch — the collection
loop's `continue` only skips the base-name set, and the linking loop still
hard-links the file.  Concretely, importing the unparsable `x.rpm` into an
empty repository succeeds and links it below `Packages/`. -/
theorem claim_C1_counterexample :
    pkg_match (chars "x.rpm") = none ∧
    (import_to_no_lock [] [chars "repo"] [(chars "x.rpm", chars "C")] true).err = none ∧
    fs_lookup (import_to_no_lock [] [chars "repo"] [(chars "x.rpm", chars "C")] true).fs
        (rpm_dest [chars "repo"] (chars "x.rpm")) = some (chars "C") :=
  ⟨by decide, by decide, by decide⟩

/-- Claim C1, amended: each file of the batch whose name does not match the
package-identity pattern is warned about and excluded from the conflict
resolution base-name set, but it is still hard-linked into the repository
directory; on a successful import every batch file — well-formed or not —
ends up at its archive path. -/
theorem claim_C1_theorem (fs : FS) (repoDir : FPath) (rpms : List (FName × Bytes))
    (ok : Bool) :
    (import_to_no_lock fs repoDir rpms ok).warnings
        = (rpms.filter (fun r => (pkg_name r.1).isNone)).map (·.1) ∧
    ((import_to_no_lock fs repoDir rpms ok).err = none →
      ∀ r ∈ rpms,
        fs_lookup (import_to_no_lock fs repoDir rpms ok).fs (rpm_dest repoDir r.1)
          = some r.2) := by
  refine ⟨?_, fun h => import_ok_mem h⟩
  unfold import_to_no_lock
  cases hlb : link_batch repoDir (resolve_conflicts repoDir (batch_names rpms) fs) rpms with
  | mk fs2 e =>
    cases e with
    | some err => exact rfl
    | none => cases ok with
        | false => exact rfl
        | true => exact rfl

/-- Witness for the amended claim C1 at a concrete two-file batch with one
malformed name. -/
theorem claim_C1_witness :
    (import_to_no_lock [] [chars "r"]
        [(chars "foo-1.0-1.x86_64.rpm", chars "A"), (chars "bad.rpm", chars "B")]
        true).warnings = [chars "bad.rpm"] ∧
    fs_lookup (import_to_no_lock [] [chars "r"]
        [(chars "foo-1.0-1.x86_64.rpm", chars "A"), (chars "bad.rpm", chars "B")]
        true).fs (rpm_dest [chars "r"] (chars "bad.rpm")) = some (chars "B") := by
  constructor
  · rw [(claim_C1_theorem [] [chars "r"]
      [(chars "foo-1.0-1.x86_64.rpm", chars "A"), (chars "bad.rpm", chars "B")] true).1]
    decide
  · exact (claim_C1_theorem [] [chars "r"]
      [(chars "foo-1.0-1.x86_64.rpm", chars "A"), (chars "bad.rpm", chars "B")] true).2
      (by decide) (chars "bad.rpm", chars "B") (by decide)

/-! # Claim C3: the gzip twin created by apt `initialize` -/

/-- `ensure_file` preserves every present file: it only creates a file
that did not exist. -/
theorem ensure_file_lookup_some {p q : FPath} {c : Bytes} (st : InitState)
    (h : fs_lookup st.fs q = some c) :
    fs_lookup (ensure_file p st).fs q = some c := by
  unfold ensure_file
  by_cases hp : (fs_lookup st.fs p).isSome = true
  · rw [if_pos hp]
    exact h
  · rw [if_neg hp]
    have hne : p ≠ q := by
      intro hc
      rw [hc, h] at hp
      exact hp rfl
    show fs_lookup ((p, []) :: st.fs) q = some c
    simp only [fs_lookup, if_neg hne]
    exact h

/-- `ensure_gz_twin` preserves every present file. -/
theorem ensure_gz_twin_lookup_some {raw gz q : FPath} {c : Bytes} (st : InitState)
    (h : fs_lookup st.fs q = some c) :
    fs_lookup (ensure_gz_twin raw gz st).fs q = some c := by
  unfold ensure_gz_twin
  by_cases hp : (fs_lookup st.fs gz).isSome = true
  · rw [if_pos hp]
    exact h
  · rw [if_neg hp]
    have hne : gz ≠ q := by
      intro hc
      rw [hc, h] at hp
      exact hp rfl
    show fs_lookup ((gz, _) :: st.fs) q = some c
    simp only [fs_lookup, if_neg hne]
    exact h

/-- The Release step touches only the Release path. -/
theorem release_step_lookup_some {q : FPath} {c : Bytes} (T : ExtTools) (now : FName)
    (st : InitState) (osDir : FPath) (osCodeName : FName)
    (hq : release_path osDir osCodeName ≠ q)
    (h : fs_lookup st.fs q = some c) :
    fs_lookup (deb_release_step T now st osDir osCodeName).1 q = some c := by
  unfold deb_release_step
  split
  · show fs_lookup (generate_release T now st.fs osDir osCodeName) q = some c
    unfold generate_release
    rw [fs_lookup_write_ne (Ne.symm hq)]
    exact h
  · exact h

/-- The Release path is distinct from any index path (different depths). -/
theorem release_path_ne_md_gz (osDir : FPath) (osCodeName : FName) (a : Option FName) :
    release_path osDir osCodeName ≠ md_gz_path osDir osCodeName a := by
  unfold release_path md_gz_path
  exact append_length_ne (by simp)

/-- Claim C3: when the `Sources` index exists with content `c` and its
gzip twin is missing, `initialize` creates the twin with the *raw* content
`c` — `shutil.copyfileobj` over plainly opened files performs no gzip
compression — so whenever gzip compression would change the bytes, the
twin does not hold the compressed content the claim requires. -/
theorem claim_C3_theorem (T : ExtTools) (now : FName) (fs : FS) (basePath : FPath)
    (osName osCodeName archName : FName) (c : Bytes)
    (hraw : fs_lookup fs (md_path (basePath ++ [osName]) osCodeName none) = some c)
    (hgz : fs_lookup fs (md_gz_path (basePath ++ [osName]) osCodeName none) = none) :
    fs_lookup (initialize_deb T now fs basePath osName osCodeName archName).1
        (md_gz_path (basePath ++ [osName]) osCodeName none) = some c ∧
    (T.gzipC c ≠ c →
      fs_lookup (initialize_deb T now fs basePath osName osCodeName archName).1
        (md_gz_path (basePath ++ [osName]) osCodeName none) ≠ some (T.gzipC c)) := by
  have hmain : fs_lookup (initialize_deb T now fs basePath osName osCodeName archName).1
      (md_gz_path (basePath ++ [osName]) osCodeName none) = some c := by
    unfold initialize_deb deb_ensure_steps
    have e1 : ensure_file (md_path (basePath ++ [osName]) osCodeName none)
        ⟨fs, [], false⟩ = ⟨fs, [], false⟩ := by
      unfold ensure_file
      rw [hraw]
      rfl
    rw [e1]
    have e2 : ensure_gz_twin (md_path (basePath ++ [osName]) osCodeName none)
        (md_gz_path (basePath ++ [osName]) osCodeName none) ⟨fs, [], false⟩
        = ⟨(md_gz_path (basePath ++ [osName]) osCodeName none, c) :: fs,
            [md_gz_path (basePath ++ [osName]) osCodeName none], true⟩ := by
      unfold ensure_gz_twin
      rw [hgz, hraw]
      rfl
    rw [e2]
    refine release_step_lookup_some T now _ _ _ (release_path_ne_md_gz _ _ none) ?_
    refine ensure_gz_twin_lookup_some _ ?_
    refine ensure_file_lookup_some _ ?_
    simp [fs_lookup]
  refine ⟨hmain, fun hne hc => ?_⟩
  rw [hmain] at hc
  injection hc with h2
  exact hne h2.symm

/-- Witness for claim C3 at a concrete one-byte `Sources` file and the
trivial gzip implementation (which changes every nonempty content). -/
theorem claim_C3_witness :
    fs_lookup (initialize_deb trivial_tools []
        [(md_path [chars "b", chars "debian"] (chars "bookworm") none, chars "X")]
        [chars "b"] (chars "debian") (chars "bookworm") (chars "amd64")).1
      (md_gz_path [chars "b", chars "debian"] (chars "bookworm") none)
      = some (chars "X") := by
  have h := claim_C3_theorem trivial_tools [] 
    [(md_path [chars "b", chars "debian"] (chars "bookworm") none, chars "X")]
    [chars "b"] (chars "debian") (chars "bookworm") (chars "amd64") (chars "X")
    (by decide) (by decide)
  exact h.1

/-! # Claim C9: per-directory serialization of imports -/

theorem mem_path_cons {p x : FPath} {l : List FPath}
    (h : mem_path p l = true) : mem_path p (x :: l) = true := by
  unfold mem_path
  by_cases hx : x = p
  · rw [if_pos hx]
  · rw [if_neg hx]
    exact h

theorem mem_path_drop_ne {p q : FPath} (h : p ≠ q) :
    ∀ l : List FPath, mem_path p (drop_path q l) = mem_path p l
  | [] => rfl
  | x :: rest => by
      by_cases hx : x = q
      · have hxp : ¬(x = p) := fun hc => h (hc ▸ hx)
        simp only [drop_path, if_pos hx, mem_path, if_neg hxp]
        exact mem_path_drop_ne h rest
      · simp only [drop_path, if_neg hx, mem_path]
        by_cases hxp : x = p
        · rw [if_pos hxp, if_pos hxp]
        · rw [if_neg hxp, if_neg hxp]
          exact mem_path_drop_ne h rest

/-- The inductive invariant of the two-call lock protocol: a call inside
its critical section holds its directory's lock, and two calls inside at
once target distinct directories. -/
def lock_inv (s : LockState) : Prop :=
  (s.p1 = .inside → mem_path s.d1 s.held = true) ∧
  (s.p2 = .inside → mem_path s.d2 s.held = true) ∧
  (s.p1 = .inside → s.p2 = .inside → s.d1 ≠ s.d2)

theorem lock_step_inv {a b : LockState} (hstep : LockStep a b) (ih : lock_inv a) :
    lock_inv b := by
  obtain ⟨i1, i2, i3⟩ := ih
  cases hstep with
  | acq1 h hfree =>
      refine ⟨fun _ => ?_, fun h2 => ?_, fun _ h2 => ?_⟩
      · show mem_path a.d1 (a.d1 :: a.held) = true
        unfold mem_path
        rw [if_pos rfl]
      · exact mem_path_cons (i2 h2)
      · intro hc
        have hm := i2 h2
        rw [← hc] at hm
        rw [hm] at hfree
        exact Bool.noConfusion hfree
  | rel1 h =>
      refine ⟨fun hc => ?_, fun h2 => ?_, fun hc => ?_⟩
      · exact absurd hc (by simp)
      · have hne : a.d2 ≠ a.d1 := fun hc => i3 h h2 hc.symm
        rw [mem_path_drop_ne hne]
        exact i2 h2
      · exact absurd hc (by simp)
  | acq2 h hfree =>
      refine ⟨fun h1 => ?_, fun _ => ?_, fun h1 _ => ?_⟩
      · exact mem_path_cons (i1 h1)
      · show mem_path a.d2 (a.d2 :: a.held) = true
        unfold mem_path
        rw [if_pos rfl]
      · intro hc
        have hm := i1 h1
        rw [hc] at hm
        rw [hm] at hfree
        exact Bool.noConfusion hfree
  | rel2 h =>
      refine ⟨fun h1 => ?_, fun hc => ?_, fun _ hc => ?_⟩
      · have hne : a.d1 ≠ a.d2 := i3 h1 h
        rw [mem_path_drop_ne hne]
        exact i1 h1
      · exact absurd hc (by simp)
      · exact absurd hc (by simp)

theorem lock_reach_inv {d1 d2 : FPath} {s : LockState} (h : LockReach d1 d2 s) :
    lock_inv s := by
  induction h with
  | refl =>
      exact ⟨fun hc => LockPhase.noConfusion hc, fun hc => LockPhase.noConfusion hc,
        fun hc _ => absurd hc (by simp [lock_init])⟩
  | tail hr hs ih => exact lock_step_inv hs ih

/-- Claim C9: in every reachable interleaving of two import calls, the two
critical sections never overlap when the calls target the same directory
(the per-directory lock serializes them), while for distinct directories a
reachable state exists with both calls inside their critical sections at
once (independent directories proceed in parallel). -/
theorem claim_C9_theorem (d1 d2 : FPath) (s : LockState) (h : LockReach d1 d2 s) :
    (s.d1 = s.d2 → ¬(s.p1 = .inside ∧ s.p2 = .inside)) ∧
    (d1 ≠ d2 → ∃ t : LockState,
      LockReach d1 d2 t ∧ t.p1 = .inside ∧ t.p2 = .inside) := by
  constructor
  · intro heq hc
    exact (lock_reach_inv h).2.2 hc.1 hc.2 heq
  · intro hne
    have step1 : LockStep (lock_init d1 d2) ⟨d1, d2, .inside, .outside, [d1]⟩ :=
      LockStep.acq1 (lock_init d1 d2) rfl rfl
    have step2 : LockStep ⟨d1, d2, .inside, .outside, [d1]⟩
        ⟨d1, d2, .inside, .inside, [d2, d1]⟩ := by
      have hfree : mem_path d2 [d1] = false := by
        unfold mem_path
        rw [if_neg hne]
        rfl
      exact LockStep.acq2 ⟨d1, d2, .inside, .outside, [d1]⟩ rfl hfree
    exact ⟨⟨d1, d2, .inside, .inside, [d2, d1]⟩,
      Relation.ReflTransGen.tail (Relation.ReflTransGen.tail .refl step1) step2,
      rfl, rfl⟩

/-- Witness for claim C9: with both calls aimed at directory `a`, the state
where only the first call is inside is reachable and never has both inside;
with distinct directories `a` and `b`, a state with both inside is
reachable. -/
theorem claim_C9_witness :
    ¬((⟨[chars "a"], [chars "a"], .inside, .outside, [[chars "a"]]⟩ : LockState).p1
          = LockPhase.inside ∧
      (⟨[chars "a"], [chars "a"], .inside, .outside, [[chars "a"]]⟩ : LockState).p2
          = LockPhase.inside) ∧
    (∃ t : LockState,
      LockReach [chars "a"] [chars "b"] t ∧ t.p1 = .inside ∧ t.p2 = .inside) := by
  constructor
  · have hreach : LockReach [chars "a"] [chars "a"]
        ⟨[chars "a"], [chars "a"], .inside, .outside, [[chars "a"]]⟩ :=
      Relation.ReflTransGen.tail .refl
        (LockStep.acq1 (lock_init [chars "a"] [chars "a"]) rfl rfl)
    exact (claim_C9_theorem [chars "a"] [chars "a"] _ hreach).1 rfl
  · exact (claim_C9_theorem [chars "a"] [chars "b"] (lock_init _ _)
      Relation.ReflTransGen.refl).2 (by decide)

/-! # Claim C4: the format of the generated Release file -/

/-- The sequential digest-loop writes equal one digest line per file. -/
theorem write_digests_eq (h : Bytes → List Char) :
    ∀ (files : List (FName × Bytes)) (acc : FName),
      write_digests h files acc = acc ++ (files.map (digest_line h)).flatten
  | [], acc => by simp [write_digests]
  | f :: rest, acc => by
      rw [write_digests, write_digests_eq h rest]
      simp [digest_line, List.append_assoc]

/-- Claim C4: the Release content written by `_generate_release` is exactly
the spec's format — the eight fixed header lines in order, then the
`MD5Sum`, `SHA1` and `SHA256` blocks, each holding one
` <hex-digest> <size-in-bytes> <relative-path>` line per sorted index file
with the digest and byte size computed from that file's content — and the
Release file on disk holds that content for the sorted globbed index
files. -/
theorem claim_C4_theorem (T : ExtTools) (osCodeName now : FName)
    (files : List (FName × Bytes)) (fs : FS) (osDir : FPath) :
    release_content_code T osCodeName now files
        = release_content_spec T osCodeName now files ∧
    fs_lookup (generate_release T now fs osDir osCodeName)
        (release_path osDir osCodeName)
      = some (release_content_spec T osCodeName now
          (sort_files (release_globs fs (osDir ++ [chars "dists", osCodeName])))) := by
  have hmain : ∀ fls : List (FName × Bytes),
      release_content_code T osCodeName now fls
        = release_content_spec T osCodeName now fls := by
    intro fls
    unfold release_content_code release_content_spec digest_block header_lines
    rw [write_digests_eq, write_digests_eq, write_digests_eq]
    rw [show chars "Origin: ROS\n" = chars "Origin: ROS" ++ chars "\n" from by decide]
    rw [show chars "Architectures: amd64\n"
        = chars "Architectures: amd64" ++ chars "\n" from by decide]
    rw [show chars "Components: main\n" = chars "Components: main" ++ chars "\n" from by decide]
    rw [show chars " Debian Repository\n"
        = chars " Debian Repository" ++ chars "\n" from by decide]
    rw [show chars "MD5Sum:\n" = chars "MD5Sum" ++ chars ":\n" from by decide]
    rw [show chars "SHA1:\n" = chars "SHA1" ++ chars ":\n" from by decide]
    rw [show chars "SHA256:\n" = chars "SHA256" ++ chars ":\n" from by decide]
    simp [List.append_assoc]
  refine ⟨hmain files, ?_⟩
  unfold generate_release
  rw [fs_lookup_write_self, hmain]

/-! # Claim C5: idempotence of `initialize` -/

theorem fs_lookup_write_isSome {fs : FS} {p q : FPath} {c : Bytes}
    (h : (fs_lookup fs q).isSome = true) :
    (fs_lookup (fs_write fs p c) q).isSome = true := by
  by_cases hpq : p = q
  · subst hpq
    rw [fs_lookup_write_self]
    rfl
  · rw [fs_lookup_write_ne (fun hc => hpq hc.symm)]
    exact h

theorem fs_lookup_cons_isSome {fs : FS} {p q : FPath} {c : Bytes}
    (h : (fs_lookup fs q).isSome = true) :
    (fs_lookup ((p, c) :: fs) q).isSome = true := by
  by_cases hpq : p = q
  · simp [fs_lookup, hpq]
  · simp only [fs_lookup, if_neg hpq]
    exact h

theorem ensure_file_isSome_mono {q : FPath} (p : FPath) (st : InitState)
    (h : (fs_lookup st.fs q).isSome = true) :
    (fs_lookup (ensure_file p st).fs q).isSome = true := by
  unfold ensure_file
  by_cases hp : (fs_lookup st.fs p).isSome = true
  · rw [if_pos hp]
    exact h
  · rw [if_neg hp]
    exact fs_lookup_cons_isSome h

theorem ensure_file_isSome_self (p : FPath) (st : InitState) :
    (fs_lookup (ensure_file p st).fs p).isSome = true := by
  unfold ensure_file
  by_cases hp : (fs_lookup st.fs p).isSome = true
  · rw [if_pos hp]
    exact hp
  · rw [if_neg hp]
    show (fs_lookup ((p, []) :: st.fs) p).isSome = true
    simp [fs_lookup]

theorem ensure_gz_twin_isSome_mono {q : FPath} (raw gz : FPath) (st : InitState)
    (h : (fs_lookup st.fs q).isSome = true) :
    (fs_lookup (ensure_gz_twin raw gz st).fs q).isSome = true := by
  unfold ensure_gz_twin
  by_cases hp : (fs_lookup st.fs gz).isSome = true
  · rw [if_pos hp]
    exact h
  · rw [if_neg hp]
    exact fs_lookup_cons_isSome h

theorem ensure_gz_twin_isSome_self (raw gz : FPath) (st : InitState) :
    (fs_lookup (ensure_gz_twin raw gz st).fs gz).isSome = true := by
  unfold ensure_gz_twin
  by_cases hp : (fs_lookup st.fs gz).isSome = true
  · rw [if_pos hp]
    exact hp
  · rw [if_neg hp]
    show (fs_lookup ((gz, _) :: st.fs) gz).isSome = true
    simp [fs_lookup]

theorem release_step_isSome_mono {q : FPath} (T : ExtTools) (now : FName)
    (st : InitState) (osDir : FPath) (osCodeName : FName)
    (h : (fs_lookup st.fs q).isSome = true) :
    (fs_lookup (deb_release_step T now st osDir osCodeName).1 q).isSome = true := by
  unfold deb_release_step
  by_cases hc : ((fs_lookup st.fs (release_path osDir osCodeName)).isNone || st.forced) = true
  · rw [if_pos hc]
    show (fs_lookup (generate_release T now st.fs osDir osCodeName) q).isSome = true
    unfold generate_release
    exact fs_lookup_write_isSome h
  · rw [if_neg hc]
    exact h

theorem release_step_isSome_self (T : ExtTools) (now : FName) (st : InitState)
    (osDir : FPath) (osCodeName : FName) :
    (fs_lookup (deb_release_step T now st osDir osCodeName).1
      (release_path osDir osCodeName)).isSome = true := by
  unfold deb_release_step
  by_cases hc : ((fs_lookup st.fs (release_path osDir osCodeName)).isNone || st.forced) = true
  · rw [if_pos hc]
    show (fs_lookup (generate_release T now st.fs osDir osCodeName)
      (release_path osDir osCodeName)).isSome = true
    unfold generate_release
    rw [fs_lookup_write_self]
    rfl
  · rw [if_neg hc]
    cases hl : fs_lookup st.fs (release_path osDir osCodeName) with
    | some c => rfl
    | none => exact absurd (by rw [hl]; simp) hc

theorem ensure_file_skip {p : FPath} {f : FS} {w : List FPath} {b : Bool}
    (h : (fs_lookup f p).isSome = true) : ensure_file p ⟨f, w, b⟩ = ⟨f, w, b⟩ := by
  unfold ensure_file
  rw [if_pos h]

theorem ensure_gz_twin_skip {raw gz : FPath} {f : FS} {w : List FPath} {b : Bool}
    (h : (fs_lookup f gz).isSome = true) : ensure_gz_twin raw gz ⟨f, w, b⟩ = ⟨f, w, b⟩ := by
  unfold ensure_gz_twin
  rw [if_pos h]

theorem release_step_skip {T : ExtTools} {now : FName} {osDir : FPath}
    {osCodeName : FName} {f : FS} {w : List FPath}
    (h : (fs_lookup f (release_path osDir osCodeName)).isSome = true) :
    deb_release_step T now ⟨f, w, false⟩ osDir osCodeName = (f, w) := by
  unfold deb_release_step
  cases hl : fs_lookup f (release_path osDir osCodeName) with
  | none =>
      rw [hl] at h
      exact absurd h (by simp)
  | some c =>
      rw [if_neg (by simp)]

theorem rpm_init_dir_isSome_mono {q : FPath} (st : FS × List FPath) (d : FPath)
    (h : (fs_lookup st.1 q).isSome = true) :
    (fs_lookup (rpm_init_dir st d).1 q).isSome = true := by
  unfold rpm_init_dir
  by_cases hp : (fs_lookup st.1 (d ++ [chars "repodata", chars "repomd.xml"])).isSome = true
  · rw [if_pos hp]
    exact h
  · rw [if_neg hp]
    show (fs_lookup (createrepo_effect st.1 d) q).isSome = true
    unfold createrepo_effect
    exact fs_lookup_write_isSome h

theorem rpm_init_dir_isSome_self (st : FS × List FPath) (d : FPath) :
    (fs_lookup (rpm_init_dir st d).1
      (d ++ [chars "repodata", chars "repomd.xml"])).isSome = true := by
  unfold rpm_init_dir
  by_cases hp : (fs_lookup st.1 (d ++ [chars "repodata", chars "repomd.xml"])).isSome = true
  · rw [if_pos hp]
    exact hp
  · rw [if_neg hp]
    show (fs_lookup (createrepo_effect st.1 d)
      (d ++ [chars "repodata", chars "repomd.xml"])).isSome = true
    unfold createrepo_effect
    rw [fs_lookup_write_self]
    rfl

theorem rpm_init_dir_skip {d : FPath} {f : FS} {w : List FPath}
    (h : (fs_lookup f (d ++ [chars "repodata", chars "repomd.xml"])).isSome = true) :
    rpm_init_dir (f, w) d = (f, w) := by
  unfold rpm_init_dir
  rw [if_pos h]

/-- Claim C5: calling `initialize` a second time on the state produced by a
first call performs no filesystem writes — the apt variant finds all four
index files and the Release file present and returns the filesystem
unchanged with an empty write list, and the rpm variant finds all three
`repodata/repomd.xml` descriptors present and skips every directory. -/
theorem claim_C5_theorem (T : ExtTools) (now now2 : FName) (fs : FS) (basePath : FPath)
    (osName osCodeName archName : FName) :
    initialize_deb T now2 (initialize_deb T now fs basePath osName osCodeName archName).1
        basePath osName osCodeName archName
      = ((initialize_deb T now fs basePath osName osCodeName archName).1, []) ∧
    initialize_rpm (initialize_rpm fs basePath osName osCodeName archName).1
        basePath osName osCodeName archName
      = ((initialize_rpm fs basePath osName osCodeName archName).1, []) := by
  constructor
  · have hsrc : (fs_lookup (initialize_deb T now fs basePath osName osCodeName archName).1
        (md_path (basePath ++ [osName]) osCodeName none)).isSome = true := by
      unfold initialize_deb deb_ensure_steps
      exact release_step_isSome_mono T now _ _ _
        (ensure_gz_twin_isSome_mono _ _ _
          (ensure_file_isSome_mono _ _
            (ensure_gz_twin_isSome_mono _ _ _
              (ensure_file_isSome_self _ _))))
    have hsrcgz : (fs_lookup (initialize_deb T now fs basePath osName osCodeName archName).1
        (md_gz_path (basePath ++ [osName]) osCodeName none)).isSome = true := by
      unfold initialize_deb deb_ensure_steps
      exact release_step_isSome_mono T now _ _ _
        (ensure_gz_twin_isSome_mono _ _ _
          (ensure_file_isSome_mono _ _
            (ensure_gz_twin_isSome_self _ _ _)))
    have hpkg : (fs_lookup (initialize_deb T now fs basePath osName osCodeName archName).1
        (md_path (basePath ++ [osName]) osCodeName (some archName))).isSome = true := by
      unfold initialize_deb deb_ensure_steps
      exact release_step_isSome_mono T now _ _ _
        (ensure_gz_twin_isSome_mono _ _ _
          (ensure_file_isSome_self _ _))
    have hpkggz : (fs_lookup (initialize_deb T now fs basePath osName osCodeName archName).1
        (md_gz_path (basePath ++ [osName]) osCodeName (some archName))).isSome = true := by
      unfold initialize_deb deb_ensure_steps
      exact release_step_isSome_mono T now _ _ _
        (ensure_gz_twin_isSome_self _ _ _)
    have hrel : (fs_lookup (initialize_deb T now fs basePath osName osCodeName archName).1
        (release_path (basePath ++ [osName]) osCodeName)).isSome = true := by
      unfold initialize_deb
      exact release_step_isSome_self T now _ _ _
    show deb_release_step T now2
        (deb_ensure_steps (initialize_deb T now fs basePath osName osCodeName archName).1
          (basePath ++ [osName]) osCodeName archName)
        (basePath ++ [osName]) osCodeName
      = ((initialize_deb T now fs basePath osName osCodeName archName).1, [])
    unfold deb_ensure_steps
    rw [ensure_file_skip hsrc, ensure_gz_twin_skip hsrcgz, ensure_file_skip hpkg,
      ensure_gz_twin_skip hpkggz]
    exact release_step_skip hrel
  · have h1 : (fs_lookup (initialize_rpm fs basePath osName osCodeName archName).1
        ((basePath ++ [osName, osCodeName, chars "SRPMS"])
          ++ [chars "repodata", chars "repomd.xml"])).isSome = true := by
      unfold initialize_rpm
      exact rpm_init_dir_isSome_mono _ _
        (rpm_init_dir_isSome_mono _ _ (rpm_init_dir_isSome_self _ _))
    have h2 : (fs_lookup (initialize_rpm fs basePath osName osCodeName archName).1
        ((basePath ++ [osName, osCodeName, archName])
          ++ [chars "repodata", chars "repomd.xml"])).isSome = true := by
      unfold initialize_rpm
      exact rpm_init_dir_isSome_mono _ _ (rpm_init_dir_isSome_self _ _)
    have h3 : (fs_lookup (initialize_rpm fs basePath osName osCodeName archName).1
        ((basePath ++ [osName, osCodeName, archName] ++ [chars "debug"])
          ++ [chars "repodata", chars "repomd.xml"])).isSome = true := by
      unfold initialize_rpm
      exact rpm_init_dir_isSome_self _ _
    show rpm_init_dir (rpm_init_dir (rpm_init_dir
        ((initialize_rpm fs basePath osName osCodeName archName).1, [])
        (basePath ++ [osName, osCodeName, chars "SRPMS"]))
        (basePath ++ [osName, osCodeName, archName]))
        (basePath ++ [osName, osCodeName, archName] ++ [chars "debug"])
      = ((initialize_rpm fs basePath osName osCodeName archName).1, [])
    rw [rpm_init_dir_skip h1, rpm_init_dir_skip h2, rpm_init_dir_skip h3]

/-! # Claim C10: pool-path derivation crashes on a leading underscore -/

/-- Claim C10: for a file name containing an underscore (so the assertion
passes), `_copy_to_pool` raises the out-of-bounds `name[0]` indexing error
exactly when the name begins with an underscore (the part before the first
underscore is empty); the assertion error is never the outcome there. -/
theorem claim_C10_theorem (poolDir : FPath) (fs : FS) (n : FName) (c : Bytes)
    (h : has_underscore n = true) :
    (((copy_to_pool poolDir fs (n, c)).2 = some .indexError) ↔ n.head? = some '_') ∧
    (copy_to_pool poolDir fs (n, c)).2 ≠ some .underscoreAssert := by
  have hred : copy_to_pool poolDir fs (n, c)
      = (match before_underscore n with
         | [] => (fs, some AptErr.indexError)
         | _ :: _ => (fs_write fs (pool_dest poolDir n) c, none)) := by
    unfold copy_to_pool
    rw [if_pos h]
  cases hn : n with
  | nil => rw [hn] at h; exact absurd h (by decide)
  | cons c0 rest =>
      by_cases h0 : c0 = '_'
      · subst h0
        have hb : before_underscore ('_' :: rest) = [] := by simp [before_underscore]
        rw [hn] at hred
        rw [hb] at hred
        rw [hred]
        exact ⟨⟨fun _ => rfl, fun _ => rfl⟩, by simp⟩
      · have hb : before_underscore (c0 :: rest) = c0 :: before_underscore rest := by
          simp [before_underscore, h0]
        rw [hn] at hred
        rw [hb] at hred
        rw [hred]
        constructor
        · constructor
          · intro hc
            exact absurd hc (by simp)
          · intro hc
            simp only [List.head?_cons, Option.some.injEq] at hc
            exact absurd hc h0
        · simp

/-- Witness for claim C10 at the concrete file name `_a.deb`. -/
theorem claim_C10_witness :
    (copy_to_pool [chars "pool"] [] (chars "_a.deb", chars "D")).2
      = some AptErr.indexError := by
  have h := claim_C10_theorem [chars "pool"] [] (chars "_a.deb") (chars "D") (by decide)
  exact h.1.mpr (by decide)

/-! # Claim C7: apt pool copying and the underscore contract -/

theorem append_cons_ne {d : FPath} {x y : FName} {l1 l2 : List FName} (h : x ≠ y) :
    d ++ (x :: l1) ≠ d ++ (y :: l2) := by
  intro hc
  have h2 := List.append_cancel_left hc
  injection h2 with h3 _
  exact h h3

/-- An index/Release path (below `dists/`) is never a pool path. -/
theorem dists_ne_pool (basePath : FPath) (osName : FName) (r1 r2 : List FName) :
    (basePath ++ [osName]) ++ (chars "dists" :: r1)
      ≠ (basePath ++ [osName, chars "pool"]) ++ r2 := by
  intro hc
  rw [List.append_assoc, List.append_assoc] at hc
  have h2 := List.append_cancel_left hc
  injection h2 with _ h3
  injection h3 with h4 _
  exact absurd h4 (by decide)

theorem fs_count_remove_ne {p q : FPath} (h : q ≠ p) :
    ∀ fs : FS, fs_count p (fs_remove q fs) = fs_count p fs
  | [] => rfl
  | e :: rest => by
      by_cases h1 : e.1 = q
      · have h2 : e.1 ≠ p := fun hc => h (h1 ▸ hc)
        simp only [fs_remove, if_pos h1, fs_count, if_neg h2, Nat.zero_add]
        exact fs_count_remove_ne h rest
      · simp only [fs_remove, if_neg h1, fs_count]
        rw [fs_count_remove_ne h rest]

theorem fs_count_remove_self (p : FPath) : ∀ fs : FS, fs_count p (fs_remove p fs) = 0
  | [] => rfl
  | e :: rest => by
      by_cases h1 : e.1 = p
      · simp only [fs_remove, if_pos h1]
        exact fs_count_remove_self p rest
      · simp only [fs_remove, if_neg h1, fs_count, if_neg h1, Nat.zero_add]
        exact fs_count_remove_self p rest

/-- Overwriting a path leaves exactly one entry there. -/
theorem fs_count_write_self (fs : FS) (p : FPath) (c : Bytes) :
    fs_count p (fs_write fs p c) = 1 := by
  simp [fs_write, fs_count, fs_count_remove_self p fs]

theorem fs_count_write_ne {p q : FPath} (h : q ≠ p) (fs : FS) (c : Bytes) :
    fs_count p (fs_write fs q c) = fs_count p fs := by
  simp only [fs_write, fs_count, if_neg h, Nat.zero_add]
  exact fs_count_remove_ne h fs

/-- Inversion of a successful single pool copy. -/
theorem copy_to_pool_ok {poolDir : FPath} {fs fs1 : FS} {f : FName × Bytes}
    (h : copy_to_pool poolDir fs f = (fs1, none)) :
    has_underscore f.1 = true ∧ before_underscore f.1 ≠ [] ∧
      fs1 = fs_write fs (pool_dest poolDir f.1) f.2 := by
  unfold copy_to_pool at h
  cases hu : has_underscore f.1 with
  | false =>
      rw [hu] at h
      simp at h
  | true =>
      rw [hu] at h
      rw [if_pos rfl] at h
      cases hb : before_underscore f.1 with
      | nil =>
          rw [hb] at h
          simp at h
      | cons c0 r =>
          rw [hb] at h
          refine ⟨rfl, by simp [hb], ?_⟩
          have h2 : (fs_write fs (pool_dest poolDir f.1) f.2, (none : Option AptErr))
              = (fs1, none) := h
          exact (congrArg Prod.fst h2).symm

/-- Reduction of a pool copy for a contract-conforming file name. -/
theorem copy_to_pool_valid {poolDir : FPath} {fs : FS} {f : FName × Bytes}
    (hu : has_underscore f.1 = true) (hb : before_underscore f.1 ≠ []) :
    copy_to_pool poolDir fs f = (fs_write fs (pool_dest poolDir f.1) f.2, none) := by
  unfold copy_to_pool
  rw [if_pos hu]
  cases hbu : before_underscore f.1 with
  | nil => exact absurd hbu hb
  | cons c0 r => rfl

/-- A batch containing a file without an underscore always fails. -/
theorem copy_batch_err_of_bad {poolDir : FPath} :
    ∀ (L : List (FName × Bytes)) (fs : FS),
      (∃ f ∈ L, has_underscore f.1 = false) →
      (copy_batch poolDir fs L).2.isSome = true
  | [], _, h => by
      obtain ⟨f, hf, _⟩ := h
      exact absurd hf (List.not_mem_nil f)
  | f0 :: rest, fs, h => by
      obtain ⟨f, hfmem, hbad⟩ := h
      rw [copy_batch]
      cases hcp : copy_to_pool poolDir fs f0 with
      | mk fs1 e =>
          cases e with
          | some e2 => rfl
          | none =>
              obtain ⟨hu0, _, _⟩ := copy_to_pool_ok hcp
              rcases List.mem_cons.mp hfmem with hfeq | hfr
              · rw [hfeq] at hbad
                rw [hbad] at hu0
                exact Bool.noConfusion hu0
              · exact copy_batch_err_of_bad rest fs1 ⟨f, hfr, hbad⟩

/-- Once a pool path holds exactly one entry, the rest of the copy loop
keeps it that way (a later copy to the same path overwrites). -/
theorem copy_batch_count_keep {poolDir : FPath} {p : FPath} :
    ∀ (L : List (FName × Bytes)) (fs : FS),
      fs_count p fs = 1 → fs_count p (copy_batch poolDir fs L).1 = 1
  | [], _, h => h
  | f0 :: rest, fs, h => by
      rw [copy_batch]
      cases hcp : copy_to_pool poolDir fs f0 with
      | mk fs1 e =>
          cases e with
          | some e2 =>
              have hfs1 : fs1 = fs := by
                unfold copy_to_pool at hcp
                cases hu : has_underscore f0.1 with
                | false =>
                    rw [hu] at hcp
                    rw [if_neg (by simp)] at hcp
                    exact (congrArg Prod.fst hcp).symm
                | true =>
                    rw [hu] at hcp
                    rw [if_pos rfl] at hcp
                    cases hb : before_underscore f0.1 with
                    | nil =>
                        rw [hb] at hcp
                        exact (congrArg Prod.fst hcp).symm
                    | cons c0 r =>
                        rw [hb] at hcp
                        exact absurd (congrArg Prod.snd hcp) (by simp)
              rw [hfs1]
              exact h
          | none =>
              obtain ⟨_, _, hfs1⟩ := copy_to_pool_ok hcp
              refine copy_batch_count_keep rest fs1 ?_
              rw [hfs1]
              by_cases hpe : pool_dest poolDir f0.1 = p
              · rw [hpe]
                exact fs_count_write_self fs p f0.2
              · rw [fs_count_write_ne hpe]
                exact h

/-- A batch of contract-conforming files copies every file, leaving exactly
one entry at each file's pool path. -/
theorem copy_batch_ok_all {poolDir : FPath} :
    ∀ (L : List (FName × Bytes)) (fs : FS),
      (∀ f ∈ L, has_underscore f.1 = true ∧ before_underscore f.1 ≠ []) →
      (copy_batch poolDir fs L).2 = none ∧
      ∀ f ∈ L, fs_count (pool_dest poolDir f.1) (copy_batch poolDir fs L).1 = 1
  | [], fs, _ => ⟨rfl, fun f hf => absurd hf (List.not_mem_nil f)⟩
  | f0 :: rest, fs, hval => by
      obtain ⟨hu0, hb0⟩ := hval f0 (List.mem_cons_self f0 rest)
      rw [copy_batch, copy_to_pool_valid hu0 hb0]
      obtain ⟨herr, hcounts⟩ := copy_batch_ok_all rest
        (fs_write fs (pool_dest poolDir f0.1) f0.2)
        (fun f hf => hval f (List.mem_cons_of_mem f0 hf))
      refine ⟨herr, ?_⟩
      intro f hf
      rcases List.mem_cons.mp hf with hfeq | hfr
      · rw [hfeq]
        exact copy_batch_count_keep rest _ (fs_count_write_self fs _ f0.2)
      · exact hcounts f hfr

/-- Metadata regeneration only writes below `dists/` and cannot change the
number of entries at any pool path. -/
theorem update_metadata_count_pool (T : ExtTools) (now : FName) (fs : FS)
    (basePath : FPath) (osName osCodeName : FName) (archName : Option FName)
    (scanOut : Bytes) (scanOk : Bool) (rest : List FName) :
    fs_count ((basePath ++ [osName, chars "pool"]) ++ rest)
      (update_metadata T now fs (basePath ++ [osName]) osCodeName archName
        scanOut scanOk).1
      = fs_count ((basePath ++ [osName, chars "pool"]) ++ rest) fs := by
  unfold update_metadata generate_release
  simp only [md_path, md_gz_path, release_path]
  cases scanOk with
  | false =>
      simp only [Bool.false_eq_true, if_false]
      rw [fs_count_write_ne (dists_ne_pool basePath osName _ rest) _ _,
        fs_count_write_ne (dists_ne_pool basePath osName _ rest) _ _]
  | true =>
      simp only [if_true]
      rw [fs_count_write_ne (dists_ne_pool basePath osName _ rest) _ _,
        fs_count_write_ne (dists_ne_pool basePath osName _ rest) _ _,
        fs_count_write_ne (dists_ne_pool basePath osName _ rest) _ _]

/-- Claim C7 as stated is false on the code: in a batch whose every file
name contains an underscore, a name beginning with an underscore is not
copied — the whole import fails with the out-of-bounds indexing error and
the filesystem is left untouched. -/
theorem claim_C7_counterexample :
    has_underscore (chars "_a.deb") = true ∧
    deb_import_binary trivial_tools [] [] [chars "base"] (chars "ubuntu") (chars "jammy")
        (chars "amd64") [(chars "_a.deb", chars "D")] [] true
      = ([], some AptErr.indexError) :=
  ⟨by decide, by decide⟩

/-- Claim C7, amended: a batch containing a file name without an underscore
fails as a whole; and when every file name has an underscore *and* a
nonempty part before its first underscore, each file is copied into
`pool/<first-char-of-name>/<name>/`, overwriting any file already at that
pool path so that exactly one entry remains there (also after the metadata
regeneration that follows). -/
theorem claim_C7_theorem (T : ExtTools) (now : FName) (fs : FS) (basePath : FPath)
    (osName osCodeName archName : FName) (binarydeb : List (FName × Bytes))
    (scanOut : Bytes) (scanOk : Bool) :
    ((∃ f ∈ binarydeb, has_underscore f.1 = false) →
      (deb_import_binary T now fs basePath osName osCodeName archName binarydeb
          scanOut scanOk).2.isSome = true) ∧
    ((∀ f ∈ binarydeb, has_underscore f.1 = true ∧ before_underscore f.1 ≠ []) →
      ∀ f ∈ binarydeb,
        fs_count (pool_dest (basePath ++ [osName, chars "pool"]) f.1)
          (deb_import_binary T now fs basePath osName osCodeName archName binarydeb
            scanOut scanOk).1 = 1) := by
  constructor
  · intro hbad
    unfold deb_import_binary
    cases hcb : copy_batch (basePath ++ [osName, chars "pool"]) fs binarydeb with
    | mk fs1 e =>
        cases e with
        | some e2 => rfl
        | none =>
            have h2 := @copy_batch_err_of_bad (basePath ++ [osName, chars "pool"])
              binarydeb fs hbad
            rw [hcb] at h2
            exact absurd h2 (by simp)
  · intro hval f hf
    unfold deb_import_binary
    obtain ⟨herr, hcounts⟩ := copy_batch_ok_all binarydeb fs hval
    cases hcb : copy_batch (basePath ++ [osName, chars "pool"]) fs binarydeb with
    | mk fs1 e =>
        rw [hcb] at herr hcounts
        cases e with
        | some e2 => exact absurd herr (by simp)
        | none =>
            show fs_count _ (update_metadata T now fs1 (basePath ++ [osName]) osCodeName
              (some archName) scanOut scanOk).1 = 1
            unfold pool_dest
            rw [update_metadata_count_pool]
            exact hcounts f hf

/-- Witness for the amended claim C7: importing the same `.deb` twice over
one batch leaves exactly one entry at its pool path. -/
theorem claim_C7_witness :
    fs_count (pool_dest ([chars "base"] ++ [chars "ubuntu", chars "pool"]) (chars "pkg_1.deb"))
      (deb_import_binary trivial_tools [] [] [chars "base"] (chars "ubuntu") (chars "jammy")
        (chars "amd64") [(chars "pkg_1.deb", chars "A"), (chars "pkg_1.deb", chars "B")]
        [] true).1 = 1 := by
  have h := (claim_C7_theorem trivial_tools [] [] [chars "base"] (chars "ubuntu")
    (chars "jammy") (chars "amd64")
    [(chars "pkg_1.deb", chars "A"), (chars "pkg_1.deb", chars "B")] [] true).2
  exact h (by decide) (chars "pkg_1.deb", chars "B") (by decide)

/-! # Claim C6: the partition performed by rpm `import_binary` -/

/-- Claim C6 as stated is false on the code: the source and debug subsets
are not disjoint.  `a-debuginfo-1.src.rpm` matches both `*.src.rpm` and
`*-debuginfo-*.rpm`; it lands in both subsets, and — far from being
excluded from import — it is imported into the debug directory. -/
theorem claim_C6_counterexample :
    ((chars "a-debuginfo-1.src.rpm", ([] : Bytes)) ∈
        src_set [(chars "a-debuginfo-1.src.rpm", [])]) ∧
    ((chars "a-debuginfo-1.src.rpm", ([] : Bytes)) ∈
        debug_set [(chars "a-debuginfo-1.src.rpm", [])]) ∧
    fs_lookup (rpm_import_binary [] [chars "base"] (chars "fedora") (chars "38")
        (chars "x86_64") [(chars "a-debuginfo-1.src.rpm", [])] true true).fs
      (rpm_dest [chars "base", chars "fedora", chars "38", chars "x86_64", chars "debug"]
        (chars "a-debuginfo-1.src.rpm")) = some [] :=
  ⟨by decide, by decide, by decide⟩

/-- Claim C6, amended: the arch subset is disjoint from both the source
and the debug subsets, but the source and debug subsets may overlap, and a
file in both is imported into the debug directory; a source file is
excluded from import only when it matches no debug pattern.  An empty arch
subset sets the warning and the debug subset is still imported (on
success, every debug file is linked below the debug directory); a nonempty
arch subset produces no such warning. -/
theorem claim_C6_theorem (fs : FS) (basePath : FPath) (osName osCodeName archName : FName)
    (l : List (FName × Bytes)) (ok1 ok2 : Bool) :
    (∀ r ∈ arch_set l, r ∉ src_set l ∧ r ∉ debug_set l) ∧
    (arch_set l = [] →
      (rpm_import_binary fs basePath osName osCodeName archName l ok1 ok2).emptyArchWarn
          = true ∧
      (rpm_import_binary fs basePath osName osCodeName archName l ok1 ok2).fs
          = (rpm_debug_stage fs (basePath ++ [osName, osCodeName, archName, chars "debug"])
              l ok2).1 ∧
      ((rpm_import_binary fs basePath osName osCodeName archName l ok1 ok2).err = none →
        ∀ r ∈ debug_set l,
          fs_lookup
            (rpm_import_binary fs basePath osName osCodeName archName l ok1 ok2).fs
            (rpm_dest (basePath ++ [osName, osCodeName, archName, chars "debug"]) r.1)
            = some r.2)) ∧
    (arch_set l ≠ [] →
      (rpm_import_binary fs basePath osName osCodeName archName l ok1 ok2).emptyArchWarn
          = false) := by
  refine ⟨?_, ?_, ?_⟩
  · intro r hr
    unfold arch_set at hr
    rw [List.mem_filter] at hr
    obtain ⟨hmem, hpred⟩ := hr
    rw [Bool.and_eq_true, Bool.and_eq_true] at hpred
    obtain ⟨⟨_, hnsrc⟩, hndbg⟩ := hpred
    rw [Bool.not_eq_true'] at hnsrc hndbg
    constructor
    · intro hs
      unfold src_set at hs
      rw [List.mem_filter] at hs
      rw [hs.2] at hnsrc
      exact Bool.noConfusion hnsrc
    · intro hd
      unfold debug_set at hd
      rw [List.mem_filter] at hd
      rw [hd.2] at hndbg
      exact Bool.noConfusion hndbg
  · intro harch
    unfold rpm_import_binary
    rw [harch]
    refine ⟨rfl, rfl, ?_⟩
    intro herr r hr
    unfold rpm_debug_stage at herr ⊢
    cases hds : debug_set l with
    | nil => exact absurd (hds ▸ hr) (List.not_mem_nil r)
    | cons d ds =>
        rw [hds] at herr
        exact import_ok_mem herr r (hds ▸ hr)
  · intro harch
    unfold rpm_import_binary
    cases hcase : arch_set l with
    | nil => exact absurd hcase harch
    | cons a as =>
        cases herr : (import_to_no_lock fs (basePath ++ [osName, osCodeName, archName])
            (a :: as) ok1).err with
        | some e => simp [herr]
        | none => simp [herr]

/-- Witness for the amended claim C6: a batch holding one debug rpm and no
arch rpm warns about the empty arch subset and still links the debug rpm. -/
theorem claim_C6_witness :
    (rpm_import_binary [] [chars "b"] (chars "fedora") (chars "38") (chars "x86_64")
        [(chars "pkg-debuginfo-1.0-1.x86_64.rpm", chars "D")] true true).emptyArchWarn
      = true ∧
    fs_lookup (rpm_import_binary [] [chars "b"] (chars "fedora") (chars "38")
        (chars "x86_64") [(chars "pkg-debuginfo-1.0-1.x86_64.rpm", chars "D")] true true).fs
      (rpm_dest ([chars "b"] ++ [chars "fedora", chars "38", chars "x86_64", chars "debug"])
        (chars "pkg-debuginfo-1.0-1.x86_64.rpm")) = some (chars "D") := by
  have h := claim_C6_theorem [] [chars "b"] (chars "fedora") (chars "38") (chars "x86_64")
    [(chars "pkg-debuginfo-1.0-1.x86_64.rpm", chars "D")] true true
  obtain ⟨hw, hf, hlink⟩ := h.2.1 (by decide)
  exact ⟨hw, hlink (by decide)
    (chars "pkg-debuginfo-1.0-1.x86_64.rpm", chars "D") (by decide)⟩

/-! # Claim C8: a failing indexer aborts the import without rollback -/

/-- The deletion loop removes every entry at a conflicting path. -/
theorem resolve_conflicts_lookup_none {repoDir : FPath} {names : List FName} {p : FPath}
    (hc : conflict_pred repoDir names p = true) :
    ∀ fs : FS, fs_lookup (resolve_conflicts repoDir names fs) p = none
  | [] => rfl
  | e :: rest => by
      by_cases h : conflict_pred repoDir names e.1 = true
      · simp only [resolve_conflicts, if_pos h]
        exact resolve_conflicts_lookup_none hc rest
      · have hne : e.1 ≠ p := fun hc2 => h (hc2 ▸ hc)
        simp only [resolve_conflicts, if_neg h, fs_lookup, if_neg hne]
        exact resolve_conflicts_lookup_none hc rest

/-- Linking a batch leaves any non-destination path absent if it was
absent. -/
theorem link_batch_preserves_none {repoDir : FPath} {p : FPath} :
    ∀ (rpms : List (FName × Bytes)) (fs : FS),
      (∀ r ∈ rpms, p ≠ rpm_dest repoDir r.1) →
      fs_lookup fs p = none → fs_lookup (link_batch repoDir fs rpms).1 p = none
  | [], _, _, h => h
  | r :: rest, fs, hne, h => by
      rw [link_batch]
      cases hone : link_one repoDir fs r with
      | error e => exact h
      | ok fs1 =>
          obtain ⟨_, hfs1⟩ := link_one_ok hone
          refine link_batch_preserves_none rest fs1 (fun r2 hr2 => hne r2 (List.mem_cons_of_mem r hr2)) ?_
          rw [hfs1]
          simp only [fs_lookup]
          rw [if_neg (fun hc => (hne r (List.mem_cons_self r rest)) hc.symm)]
          exact h

/-- Claim C8: when the external indexer exits non-zero after the
conflict-resolution deletions and the hard links have been applied,
the call returns a fatal error and keeps the partially updated directory:
the result is exactly the post-deletion post-link filesystem, every batch
file is present at its archive path, and every deleted conflicting path
that is not a destination of the batch stays absent. -/
theorem claim_C8_theorem (fs : FS) (repoDir : FPath) (rpms : List (FName × Bytes))
    (fs2 : FS)
    (h : link_batch repoDir (resolve_conflicts repoDir (batch_names rpms) fs) rpms
          = (fs2, none)) :
    import_to_no_lock fs repoDir rpms false
        = ⟨fs2, import_warnings rpms, some .indexerFailed⟩ ∧
    (∀ r ∈ rpms, fs_lookup fs2 (rpm_dest repoDir r.1) = some r.2) ∧
    (∀ p : FPath, conflict_pred repoDir (batch_names rpms) p = true →
      (∀ r ∈ rpms, p ≠ rpm_dest repoDir r.1) → fs_lookup fs2 p = none) := by
  refine ⟨?_, link_batch_ok_mem rpms _ fs2 h, ?_⟩
  · unfold import_to_no_lock
    rw [h]
    rfl
  · intro p hp hne
    have h0 := resolve_conflicts_lookup_none hp fs
    have h1 := @link_batch_preserves_none repoDir p rpms
      (resolve_conflicts repoDir (batch_names rpms) fs) hne h0
    rwa [h] at h1

/-- Witness for claim C8: importing `foo-2.0` over an archived `foo-1.0`
with a failing indexer deletes the old file, links the new one, and
reports the fatal error. -/
theorem claim_C8_witness :
    import_to_no_lock
        [([chars "repo", chars "Packages", chars "f", chars "foo-1.0-1.x86_64.rpm"],
          chars "OLD")]
        [chars "repo"] [(chars "foo-2.0-1.x86_64.rpm", chars "NEW")] false
      = ⟨[(rpm_dest [chars "repo"] (chars "foo-2.0-1.x86_64.rpm"), chars "NEW")],
          [], some .indexerFailed⟩ ∧
    fs_lookup [(rpm_dest [chars "repo"] (chars "foo-2.0-1.x86_64.rpm"), chars "NEW")]
        [chars "repo", chars "Packages", chars "f", chars "foo-1.0-1.x86_64.rpm"] = none := by
  have h := claim_C8_theorem
    [([chars "repo", chars "Packages", chars "f", chars "foo-1.0-1.x86_64.rpm"], chars "OLD")]
    [chars "repo"] [(chars "foo-2.0-1.x86_64.rpm", chars "NEW")]
    [(rpm_dest [chars "repo"] (chars "foo-2.0-1.x86_64.rpm"), chars "NEW")] (by decide)
  refine ⟨h.1, ?_⟩
  exact h.2.2 _ (by decide) (by decide)

/-! # Claim C2: the no-duplicate invariant after an rpm import -/

theorem mem_name_iff (b : FName) : ∀ l : List FName, mem_name b l = true ↔ b ∈ l
  | [] => by simp [mem_name]
  | x :: rest => by
      by_cases h : x = b
      · simp [mem_name, h]
      · simp only [mem_name, if_neg h, List.mem_cons]
        rw [mem_name_iff b rest]
        exact ⟨fun h1 => Or.inr h1, fun h1 => h1.resolve_left (fun hc => h hc.symm)⟩

/-- A path counted by the per-base-name invariant is deleted by the
conflict-resolution scan whenever its base name is in the batch's set. -/
theorem base_imp_conflict {repoDir : FPath} {names : List FName} {b : FName} {p : FPath}
    (hb : mem_name b names = true) (h : base_rpm_pred repoDir b p = true) :
    conflict_pred repoDir names p = true := by
  unfold base_rpm_pred at h
  unfold conflict_pred
  rw [Bool.and_eq_true] at h
  obtain ⟨h1, h2⟩ := h
  rw [Bool.and_eq_true]
  refine ⟨h1, ?_⟩
  cases hg : p.getLast? with
  | none => rw [hg] at h2; exact absurd h2 (by simp)
  | some n =>
      rw [hg] at h2
      show (endsWith n (chars ".rpm") &&
        (match pkg_name n with
         | some b => mem_name b names
         | none => false)) = true
      rw [Bool.and_eq_true] at h2
      obtain ⟨h3, h4⟩ := h2
      have h5 : pkg_name n = some b := of_decide_eq_true h4
      rw [h5, Bool.and_eq_true]
      exact ⟨h3, hb⟩

/-- After the deletion loop, no file under the directory matches the
per-base-name predicate for a base name of the batch. -/
theorem resolve_count_zero {repoDir : FPath} {names : List FName} {b : FName}
    (hb : mem_name b names = true) :
    ∀ fs : FS, fs_count_pred (base_rpm_pred repoDir b) (resolve_conflicts repoDir names fs) = 0
  | [] => rfl
  | e :: rest => by
      by_cases hc : conflict_pred repoDir names e.1 = true
      · simp only [resolve_conflicts, if_pos hc]
        exact resolve_count_zero hb rest
      · have hbp : base_rpm_pred repoDir b e.1 = false := by
          cases hx : base_rpm_pred repoDir b e.1 with
          | false => rfl
          | true => exact absurd (base_imp_conflict hb hx) hc
        simp only [resolve_conflicts, if_neg hc, fs_count_pred, hbp]
        rw [resolve_count_zero hb rest]
        simp

/-- Linking a batch adds at most one counted entry per batch file whose
destination is counted. -/
theorem link_batch_count {repoDir : FPath} (q : FPath → Bool) :
    ∀ (rpms : List (FName × Bytes)) (fs : FS),
      fs_count_pred q (link_batch repoDir fs rpms).1 ≤
        fs_count_pred q fs + (rpms.filter (fun r => q (rpm_dest repoDir r.1))).length
  | [], fs => by simp [link_batch]
  | r :: rest, fs => by
      rw [link_batch]
      cases hone : link_one repoDir fs r with
      | error e => exact Nat.le_add_right _ _
      | ok fs1 =>
          obtain ⟨_, hfs1⟩ := link_one_ok hone
          change fs_count_pred q (link_batch repoDir fs1 rest).1 ≤ _
          have hcount : fs_count_pred q fs1
              = (if q (rpm_dest repoDir r.1) = true then 1 else 0) + fs_count_pred q fs := by
            rw [hfs1]; rfl
          have ih := @link_batch_count repoDir q rest fs1
          rw [hcount] at ih
          by_cases hq : q (rpm_dest repoDir r.1) = true
          · rw [if_pos hq] at ih
            simp only [List.filter_cons, hq, if_true, List.length_cons]
            omega
          · rw [if_neg hq] at ih
            have hq2 : q (rpm_dest repoDir r.1) = false := Bool.not_eq_true _ ▸ hq
            simp only [List.filter_cons, hq2, Bool.false_eq_true, if_false]
            omega

/-- Filtering with a stronger predicate yields at most as many elements. -/
theorem filter_imp_length_le {α : Type} (p q : α → Bool) (h : ∀ a, p a = true → q a = true) :
    ∀ l : List α, (l.filter p).length ≤ (l.filter q).length
  | [] => Nat.le_refl _
  | a :: l => by
      by_cases hp : p a = true
      · simp only [List.filter_cons, hp, h a hp, if_true, List.length_cons]
        exact Nat.succ_le_succ (filter_imp_length_le p q h l)
      · simp only [List.filter_cons, hp, if_false]
        cases hq : q a with
        | false => exact filter_imp_length_le p q h l
        | true =>
            simp only [if_true, List.length_cons]
            exact Nat.le_succ_of_le (filter_imp_length_le p q h l)

/-- When the parsed values of a list are pairwise distinct, at most one
element parses to any given value. -/
theorem filterMap_nodup_count {α β : Type} [DecidableEq β] (f : α → Option β) (b : β) :
    ∀ l : List α, (l.filterMap f).Nodup →
      (l.filter (fun x => decide (f x = some b))).length ≤ 1
  | [], _ => by simp
  | a :: l, h => by
      rw [List.filterMap_cons] at h
      cases hf : f a with
      | none =>
          rw [hf] at h
          have hfa : decide (f a = some b) = false := by simp [hf]
          simp only [List.filter_cons, hfa, if_false]
          exact filterMap_nodup_count f b l h
      | some c =>
          rw [hf] at h
          have hnotin : c ∉ l.filterMap f := (List.nodup_cons.mp h).1
          have hrest := filterMap_nodup_count f b l (List.nodup_cons.mp h).2
          by_cases hbc : c = b
          · subst hbc
            have hzero : (l.filter (fun x => decide (f x = some c))).length = 0 := by
              rw [List.length_eq_zero, List.filter_eq_nil_iff]
              intro x hx hc2
              rw [decide_eq_true_eq] at hc2
              exact absurd (List.mem_filterMap.mpr ⟨x, hx, hc2⟩) hnotin
            have hfa : decide (f a = some c) = true := by simp [hf]
            simp only [List.filter_cons, hfa, if_true, List.length_cons, hzero]
            omega
          · have hfa : decide (f a = some b) = false := by simp [hf, hbc]
            simp only [List.filter_cons, hfa, if_false]
            exact hrest

theorem dir_leads_append (d l : FPath) : dir_leads d (d ++ l) = true := by
  induction d with
  | nil => rfl
  | cons x xs ih => simpa [dir_leads] using ih

theorem under_dir_append (d : FPath) (l : FPath) (h : l ≠ []) :
    under_dir d (d ++ l) = true := by
  unfold under_dir
  rw [dir_leads_append]
  simp only [Bool.true_and, decide_eq_true_eq, List.length_append]
  have : 0 < l.length := List.length_pos.mpr h
  omega

/-- The per-base-name predicate evaluated at an archive destination. -/
theorem base_rpm_pred_dest (repoDir : FPath) (b n : FName) :
    base_rpm_pred repoDir b (rpm_dest repoDir n)
      = (endsWith n (chars ".rpm") && decide (pkg_name n = some b)) := by
  unfold base_rpm_pred rpm_dest
  rw [List.getLast?_append_cons]
  rw [under_dir_append _ _ (by simp)]
  simp

/-- The repodata descriptor never matches the per-base-name predicate. -/
theorem base_rpm_pred_repomd (repoDir : FPath) (b : FName) :
    base_rpm_pred repoDir b (repoDir ++ [chars "repodata", chars "repomd.xml"]) = false := by
  unfold base_rpm_pred
  rw [List.getLast?_append_cons]
  have hends : endsWith (chars "repomd.xml") (chars ".rpm") = false := by decide
  simp [hends]

theorem fs_count_pred_remove_le (q : FPath → Bool) (p : FPath) :
    ∀ fs : FS, fs_count_pred q (fs_remove p fs) ≤ fs_count_pred q fs
  | [] => Nat.le_refl _
  | e :: rest => by
      by_cases h : e.1 = p
      · simp only [fs_remove, if_pos h, fs_count_pred]
        exact (fs_count_pred_remove_le q p rest).trans (Nat.le_add_left _ _)
      · simp only [fs_remove, if_neg h, fs_count_pred]
        exact Nat.add_le_add_left (fs_count_pred_remove_le q p rest) _

/-- Writing a file whose path is not counted cannot increase the count. -/
theorem fs_count_pred_write_le {q : FPath → Bool} {p : FPath} (h : q p = false)
    (fs : FS) (c : Bytes) : fs_count_pred q (fs_write fs p c) ≤ fs_count_pred q fs := by
  unfold fs_write
  simp only [fs_count_pred, h, Bool.false_eq_true, if_false, Nat.zero_add]
  exact fs_count_pred_remove_le q p fs

/-- Claim C2 as stated is false on the code: a single batch holding two
files with the same base name (`foo-1.0-1.x86_64.rpm` and
`foo-2.0-1.x86_64.rpm`) imports successfully and leaves two files whose
names parse to base name `foo` under the repository directory. -/
theorem claim_C2_counterexample :
    (import_to_no_lock [] [chars "repo"]
        [(chars "foo-1.0-1.x86_64.rpm", []), (chars "foo-2.0-1.x86_64.rpm", [])]
        true).err = none ∧
    batch_names [((chars "foo-1.0-1.x86_64.rpm" : FName), ([] : Bytes)),
        (chars "foo-2.0-1.x86_64.rpm", [])] = [chars "foo", chars "foo"] ∧
    fs_count_pred (base_rpm_pred [chars "repo"] (chars "foo"))
      (import_to_no_lock [] [chars "repo"]
        [(chars "foo-1.0-1.x86_64.rpm", []), (chars "foo-2.0-1.x86_64.rpm", [])]
        true).fs = 2 :=
  ⟨by decide, by decide, by decide⟩

/-- Claim C2, amended: provided the batch holds at most one file per parsed
base name (the parsed base names are pairwise distinct), a successful
rpm import leaves at most one `*.rpm` file parsing to each base name of the
batch anywhere under the target directory; every pre-existing `*.rpm`
whose parsed base name is in the batch's name set was deleted beforehand,
without comparing version or release. -/
theorem claim_C2_theorem (fs : FS) (repoDir : FPath) (rpms : List (FName × Bytes))
    (ok : Bool) (b : FName) (hnd : (batch_names rpms).Nodup)
    (hb : b ∈ batch_names rpms)
    (hok : (import_to_no_lock fs repoDir rpms ok).err = none) :
    fs_count_pred (base_rpm_pred repoDir b) (import_to_no_lock fs repoDir rpms ok).fs ≤ 1 := by
  unfold import_to_no_lock at hok ⊢
  cases hlb : link_batch repoDir (resolve_conflicts repoDir (batch_names rpms) fs) rpms with
  | mk fs2 e =>
    rw [hlb] at hok
    cases e with
    | some err => exact absurd hok (by simp)
    | none =>
        cases ok with
        | false => exact absurd hok (by simp)
        | true =>
            show fs_count_pred (base_rpm_pred repoDir b) (createrepo_effect fs2 repoDir) ≤ 1
            refine (fs_count_pred_write_le (base_rpm_pred_repomd repoDir b) fs2 _).trans ?_
            have hlink := @link_batch_count repoDir (base_rpm_pred repoDir b) rpms
              (resolve_conflicts repoDir (batch_names rpms) fs)
            rw [hlb] at hlink
            refine hlink.trans ?_
            rw [resolve_count_zero ((mem_name_iff b _).mpr hb), Nat.zero_add]
            refine (filter_imp_length_le _ (fun r => decide (pkg_name r.1 = some b)) ?_ rpms).trans ?_
            · intro r hpr
              rw [base_rpm_pred_dest, Bool.and_eq_true] at hpr
              exact hpr.2
            · exact filterMap_nodup_count (fun r : FName × Bytes => pkg_name r.1) b rpms hnd

/-- Witness for the amended claim C2 at a concrete batch replacing an older
archived version of `foo`. -/
theorem claim_C2_witness :
    fs_count_pred (base_rpm_pred [chars "repo"] (chars "foo"))
      (import_to_no_lock
        [([chars "repo", chars "Packages", chars "f", chars "foo-1.0-1.x86_64.rpm"],
          chars "OLD")]
        [chars "repo"] [(chars "foo-2.0-1.x86_64.rpm", chars "NEW")] true).fs ≤ 1 :=
  claim_C2_theorem _ _ _ _ _ (by decide) (by decide) (by decide)

end ColconRosBuildfarm
